import Mathlib

/-!
Shallow embedding of the runtime type-identity registry implemented in
src/unnamed/part_000 (the typing module) and src/src/primitives.ts.

Modelling conventions:
  * JavaScript objects live in a heap `List (Nat × HObj)` indexed by
    reference identity (a `Nat` id).  "Reference-identical" in the claims
    is equality of ids.
  * The unforgeable `Symbol()` identity tokens (`TypeSignature`) are
    modelled as `Nat`s; `create()` gives each new Type a fresh token.
  * `Reflect.defineProperty` with `writable/configurable/enumerable:false`
    is write-once: it changes the heap only when the slot is absent and
    the object is extensible, otherwise it silently does nothing
    (Reflect.defineProperty returns a Bool the source ignores).
  * Property reads `v[k]` walk the prototype chain.  JavaScript heaps
    have acyclic prototype chains; the model realizes this with the guard
    that a prototype link points to a smaller id (walks that would
    violate it answer `undefined`).
  * Errors (TypeError from member access on null, the invalid-reference
    Error thrown by `type`) are modelled with `Except`; state mutations
    performed before a throw are preserved (`M α := St → Except Err α × St`).
  * The mutually recursive parse/complex/type functions take a fuel
    argument; recursion depth is bounded by the length of the parsed
    name, so any sufficiently large fuel computes the JS behaviour.
-/

namespace Typing

/-- Errors the modelled code can raise: a TypeError from a member access on
null/undefined (or from coercing a Symbol to a string), the explicit
`Invalid type reference` Error thrown by `type`, and fuel exhaustion
(a model artifact, never reached at adequate fuel). -/
inductive Err where
  | typeError
  | invalidReference
  | outOfFuel
  deriving DecidableEq, Repr

/-- Prototype link of a heap object: null, `Object.prototype`, or another
heap object. -/
inductive ProtoRef where
  | nullProto
  | objectProto
  | other (id : Nat)
  deriving DecidableEq, Repr

/-- JavaScript runtime values: primitives and references into the heap.
Function values are a separate constructor because `typeof` distinguishes
"function" from "object". -/
inductive JSVal where
  | jsNull
  | jsUndefined
  | jsBool (b : Bool)
  | jsNum (n : Int)
  | jsStr (s : String)
  | jsSym
  | jsBig (n : Int)
  | jsObj (id : Nat)
  | jsFun (id : Nat)
  deriving DecidableEq, Repr

/-- A heap object.  The hidden symbol-keyed slots of the source
(`TypeSignature`, `Symbol.toStringTag`, `TypeReference`, `TypeArguments`,
`CachedType`) are fields; `typeProp`/`ctorProp` are the string-keyed own
properties "Type" and "constructor"; `modField`/`pathField` are the plain
`module`/`path` fields written by `Object.assign`. -/
structure HObj where
  callable : Bool := false
  funcName : String := ""
  isArr : Bool := false
  extensible : Bool := true
  proto : ProtoRef := .objectProto
  sign : Option Nat := none
  tag : Option String := none
  typeRef : Option Nat := none
  typeArgs : Option (List Nat) := none
  cached : Option Nat := none
  typeProp : Option JSVal := none
  ctorProp : Option JSVal := none
  modField : Option String := none
  pathField : Option String := none
  deriving DecidableEq, Repr

/-- A slot of the interning tree `ComplexMap`: either a directly stored
Type (its heap id) or a nested plain-object level.  Keys are the
`TypeSignature` tokens; `none` is the single key "undefined" that a
signature-less value would produce. -/
inductive CEntry where
  | tyE (t : Nat)
  | subE (es : List (Option Nat × CEntry))
  deriving Repr

/-- Whole program state: heap, the `Names` map, the `PrimitiveNames`
table (seeded at module initialisation), the `ComplexMap` interning tree
and the allocator for fresh ids. -/
structure St where
  heap : List (Nat × HObj)
  names : List (String × Nat)
  primNames : List (String × Nat)
  cmap : List (Option Nat × CEntry)
  nextId : Nat
  deriving Repr

/-- Association-list lookup (models Map.get / property lookup). -/
def aget {κ α : Type} [DecidableEq κ] : List (κ × α) → κ → Option α
  | [], _ => none
  | (k', v) :: t, k => if k' = k then some v else aget t k

/-- Association-list update (models Map.set / property write). -/
def aset {κ α : Type} [DecidableEq κ] : List (κ × α) → κ → α → List (κ × α)
  | [], k, v => [(k, v)]
  | (k', v') :: t, k, v => if k' = k then (k, v) :: t else (k', v') :: aset t k v

theorem aget_aset_self {κ α : Type} [DecidableEq κ] (l : List (κ × α)) (k : κ) (v : α) :
    aget (aset l k v) k = some v := by
  induction l with
  | nil => simp [aget, aset]
  | cons h t ih =>
    obtain ⟨k', v'⟩ := h
    by_cases hk : k' = k <;> simp [aget, aset, hk, ih]

theorem aget_aset_ne {κ α : Type} [DecidableEq κ] (l : List (κ × α)) (k k' : κ) (v : α)
    (h : k ≠ k') : aget (aset l k v) k' = aget l k' := by
  induction l with
  | nil => simp [aget, aset, h]
  | cons hd t ih =>
    obtain ⟨k0, v0⟩ := hd
    by_cases hk : k0 = k
    · subst hk
      simp [aget, aset, h]
    · simp only [aset, if_neg hk, aget]
      by_cases hk' : k0 = k' <;> simp [hk', ih]

/-! ### The state-and-error monad

JavaScript exceptions abort the current call but keep the mutations made
before the throw, so the state component is returned even on error. -/

def M (α : Type) : Type := St → Except Err α × St

def mret {α : Type} (a : α) : M α := fun σ => (.ok a, σ)

def mbind {α β : Type} (x : M α) (f : α → M β) : M β := fun σ =>
  match x σ with
  | (.ok a, σ') => f a σ'
  | (.error e, σ') => (.error e, σ')

instance : Monad M where
  pure := mret
  bind := mbind

def throwE {α : Type} (e : Err) : M α := fun σ => (.error e, σ)

def getSt : M St := fun σ => (.ok σ, σ)

def modifySt (f : St → St) : M Unit := fun σ => (.ok (), f σ)

theorem bind_eq_mbind {α β : Type} (x : M α) (f : α → M β) :
    (x >>= f) = mbind x f := rfl

theorem pure_eq_mret {α : Type} (a : α) : (pure a : M α) = mret a := rfl

/-! ### Prototype-chain property reads

`chainGo` walks own-property then prototype; the fuel `id + 1` always
suffices because prototype links decrease the id (see the guard). -/

def chainGo {α : Type} (heap : List (Nat × HObj)) (f : HObj → Option α)
    (atObjProto : Option α) : Nat → Nat → Option α
  | 0, _ => none
  | fuel + 1, id =>
    match aget heap id with
    | none => none
    | some r =>
      match f r with
      | some v => some v
      | none =>
        match r.proto with
        | .other j => if j < id then chainGo heap f atObjProto fuel j else none
        | .objectProto => atObjProto
        | .nullProto => none

/-- Read property `f` of object `id`, walking the prototype chain;
`atObjProto` is the value found on `Object.prototype` (if any). -/
def chainGet {α : Type} (σ : St) (f : HObj → Option α) (atObjProto : Option α)
    (id : Nat) : Option α :=
  chainGo σ.heap f atObjProto (id + 1) id

/-- `v[TypeSignature]` on heap object `id`. -/
def chainSign (σ : St) (id : Nat) : Option Nat := chainGet σ (·.sign) none id

/-- `v[Symbol.toStringTag]` on heap object `id`. -/
def chainTag (σ : St) (id : Nat) : Option String := chainGet σ (·.tag) none id

/-- `v[TypeReference]` on heap object `id`. -/
def chainTypeRef (σ : St) (id : Nat) : Option Nat := chainGet σ (·.typeRef) none id

/-- `v[TypeArguments]` on heap object `id`. -/
def chainTypeArgs (σ : St) (id : Nat) : Option (List Nat) :=
  chainGet σ (·.typeArgs) none id

/-- `v["Type"]` on heap object `id`. -/
def chainTypeProp (σ : St) (id : Nat) : Option JSVal :=
  chainGet σ (·.typeProp) none id

/-- `v.constructor` (a get, so inherited): `Object.prototype.constructor`
is the global `Object` function, heap id 0. -/
def chainCtor (σ : St) (id : Nat) : Option JSVal :=
  chainGet σ (·.ctorProp) (some (.jsFun 0)) id

/-- `"constructor" in v` (own or inherited; true at `Object.prototype`). -/
def chainHasCtor (σ : St) (id : Nat) : Bool :=
  (chainGet σ (fun r => r.ctorProp.map fun _ => true) (some true) id).getD false

/-- The `typeof` operator. -/
def typeofStr : JSVal → String
  | .jsNull => "object"
  | .jsUndefined => "undefined"
  | .jsBool _ => "boolean"
  | .jsNum _ => "number"
  | .jsStr _ => "string"
  | .jsSym => "symbol"
  | .jsBig _ => "bigint"
  | .jsObj _ => "object"
  | .jsFun _ => "function"

/-! ### Identity kernel and caches (source lines 128-162, 238-280) -/

/-- Lines 242-244: `isClass(v)` is just a typeof check. -/
def isClass (v : JSVal) : Bool := typeofStr v == "function"

/-- Lines 246-248: `isType(v)` — `typeof(v) === "object" && !!v[TypeSignature]`.
Accessing a property of `null` throws a TypeError. -/
def isType (σ : St) (v : JSVal) : Except Err Bool :=
  if typeofStr v == "object" then
    match v with
    | .jsNull => .error .typeError
    | .jsObj id => .ok (chainSign σ id).isSome
    | _ => .ok false
  else .ok false

/-- Lines 238-240: `isTyped(v)` — `typeof(v) === "object" && isType(v["Type"])`.
The inner access throws on `null`; `isType` then throws if `v["Type"]`
is itself `null`. -/
def isTyped (σ : St) (v : JSVal) : Except Err Bool :=
  if typeofStr v == "object" then
    match v with
    | .jsNull => .error .typeError
    | .jsObj id => isType σ ((chainTypeProp σ id).getD .jsUndefined)
    | _ => .ok false
  else .ok false

/-- Write-once `Reflect.defineProperty(heap[id], Symbol.toStringTag, …)`. -/
def defineTag (id : Nat) (v : String) (σ : St) : St :=
  match aget σ.heap id with
  | none => σ
  | some r =>
    if r.tag = none ∧ r.extensible then
      { σ with heap := aset σ.heap id { r with tag := some v } }
    else σ

/-- Write-once `Reflect.defineProperty(heap[id], TypeReference, …)`. -/
def defineTypeRef (id : Nat) (v : Nat) (σ : St) : St :=
  match aget σ.heap id with
  | none => σ
  | some r =>
    if r.typeRef = none ∧ r.extensible then
      { σ with heap := aset σ.heap id { r with typeRef := some v } }
    else σ

/-- Write-once `Reflect.defineProperty(heap[id], TypeArguments, …)`. -/
def defineTypeArgs (id : Nat) (v : List Nat) (σ : St) : St :=
  match aget σ.heap id with
  | none => σ
  | some r =>
    if r.typeArgs = none ∧ r.extensible then
      { σ with heap := aset σ.heap id { r with typeArgs := some v } }
    else σ

/-- Write-once `Reflect.defineProperty(heap[id], CachedType, …)`. -/
def defineCached (id : Nat) (v : Nat) (σ : St) : St :=
  match aget σ.heap id with
  | none => σ
  | some r =>
    if r.cached = none ∧ r.extensible then
      { σ with heap := aset σ.heap id { r with cached := some v } }
    else σ

/-- Lines 128-138: `store(v, t)` defines the hidden `CachedType` property
when `v` is an object or function (throwing on `null`, whose typeof is
"object"), and is a no-op on primitives. -/
def storeM (v : JSVal) (t : Nat) : M Unit := fun σ =>
  if typeofStr v == "object" || typeofStr v == "function" then
    match v with
    | .jsNull => (.error .typeError, σ)
    | .jsObj id => (.ok (), defineCached id t σ)
    | .jsFun id => (.ok (), defineCached id t σ)
    | _ => (.ok (), σ)
  else (.ok (), σ)

/-- Lines 140-147: `restore(v)` reads the own `CachedType` descriptor. -/
def restoreM (v : JSVal) : M (Option Nat) := fun σ =>
  if typeofStr v == "object" || typeofStr v == "function" then
    match v with
    | .jsNull => (.error .typeError, σ)
    | .jsObj id => (.ok ((aget σ.heap id).bind (·.cached)), σ)
    | .jsFun id => (.ok ((aget σ.heap id).bind (·.cached)), σ)
    | _ => (.ok none, σ)
  else (.ok none, σ)

/-- Lines 254-263: `create()` allocates a fresh plain object carrying a
fresh `TypeSignature` token. -/
def createM : M Nat := fun σ =>
  (.ok σ.nextId,
    { σ with
      heap := aset σ.heap σ.nextId { sign := some σ.nextId },
      nextId := σ.nextId + 1 })

/-- Lines 265-280: `createComplex(base, args)`. -/
def createComplexM (base : Nat) (args : List Nat) : M Nat := do
  let id ← createM
  modifySt (defineTypeRef id base)
  modifySt (defineTypeArgs id args)
  pure id

/-- Lines 149-162: `named(name)` — look up in `Names`, else create a
fresh Type, tag it with the name and register it. -/
def namedM (name : String) : M Nat := do
  let σ ← getSt
  match aget σ.names name with
  | some t => pure t
  | none => do
    let t ← createM
    modifySt (defineTag t name)
    modifySt (fun σ' => { σ' with names := aset σ'.names name t })
    pure t

/-- Lines 64-66: `baseType(t)` — `t[TypeReference] || t`. -/
def baseTypeOf (σ : St) (id : Nat) : Nat := (chainTypeRef σ id).getD id

/-- Lines 234-236: `hashOf(t)` — `Reflect.get(t, TypeSignature)`. -/
def hashOf (σ : St) (id : Nat) : Option Nat := chainSign σ id

/-- Lines 226-228: `compare(l, r)` — `hashOf(l) === hashOf(r)`. -/
def compareT (σ : St) (l r : Nat) : Bool := hashOf σ l == hashOf σ r

/-- Lines 230-232: `nameOf(t)` — `Reflect.get(t, Symbol.toStringTag)`. -/
def nameOfT (σ : St) (id : Nat) : Option String := chainTag σ id

/-- Lines 68-71: `typeArguments(t)` — `Reflect.get(t, TypeArguments)`. -/
def typeArgumentsT (σ : St) (id : Nat) : Option (List Nat) := chainTypeArgs σ id

/-! ### String processing used by `parse` (lines 164-211) -/

/-- Split a character list at every occurrence of the two-character
separator `::` (the full, unlimited split). -/
def splitColons : List Char → List (List Char)
  | [] => [[]]
  | ':' :: ':' :: rest => [] :: splitColons rest
  | c :: rest =>
    match splitColons rest with
    | h :: t => (c :: h) :: t
    | [] => [[c]]

/-- Line 171: `let [module, fqn] = name.split("::", 2)` followed by the
falsy fix-up `if (!fqn) { fqn = module; module = undefined }`.
JavaScript split with limit 2 keeps the first two pieces and drops the
rest.  Returns `(module, fqn)`. -/
def jsSplit2 (s : String) : Option String × String :=
  let parts := (splitColons s.data).map fun l => String.mk l
  match parts with
  | [] => (none, s)
  | [m] => (none, m)
  | m :: f :: _ => if f = "" then (none, m) else (some m, f)

/-- Truthiness of the optional `module` string (`undefined` and `""` are
falsy). -/
def modTruthy : Option String → Bool
  | none => false
  | some m => m ≠ ""

/-- Index of the last occurrence of `c`. -/
def lastIdxOf (c : Char) (l : List Char) : Option Nat :=
  match l with
  | [] => none
  | x :: rest =>
    match lastIdxOf c rest with
    | some i => some (i + 1)
    | none => if x = c then some 0 else none

/-- Line 176: `fqn.match(/^(.*)\<(.*)\>$/)`.  Both groups are greedy, so
a match requires the string to end in `>` and splits at the LAST `<` of
the remaining body; returns `(path, typeParams)`. -/
def matchGeneric (s : String) : Option (String × String) :=
  match s.data.getLast? with
  | some '>' =>
    let body := s.data.dropLast
    match lastIdxOf '<' body with
    | some i => some (String.mk (body.take i), String.mk (body.drop (i + 1)))
    | none => none
  | _ => none

/-- Whitespace for `String.prototype.trim`. -/
def isJsSpace (c : Char) : Bool := c = ' ' ∨ c = '\t' ∨ c = '\n' ∨ c = '\r'

/-- JavaScript `trim()`. -/
def jsTrim (s : String) : String :=
  String.mk (((s.data.dropWhile isJsSpace).reverse.dropWhile isJsSpace).reverse)

/-- Lines 183-195: the angle-bracket-depth parameter scan.  `depth` is the
`intent` counter (an Int: unbalanced `>` drives it negative), `cur` the
current piece (reversed), `acc` the pieces found so far. -/
def splitParamsGo : List Char → Int → List Char → List String → List String
  | [], _, cur, acc => acc ++ [jsTrim (String.mk cur.reverse)]
  | c :: rest, depth, cur, acc =>
    if c = '<' then splitParamsGo rest (depth + 1) (c :: cur) acc
    else if c = '>' then splitParamsGo rest (depth - 1) (c :: cur) acc
    else if c = ',' ∧ depth = 0 then
      splitParamsGo rest depth [] (acc ++ [jsTrim (String.mk cur.reverse)])
    else splitParamsGo rest depth (c :: cur) acc

/-- Lines 182-196: split a parameter list at depth-0 commas, trimming
each piece. -/
def splitParams (tp : String) : List String := splitParamsGo tp.data 0 [] []

/-- Last character of a string (used to characterise the canonical
`Base<...>` alias names, which always end in `>`). -/
def lastChar (s : String) : Option Char := s.data.getLast?

/-! ### The interning tree walk (lines 96-125 of `complex`) -/

/-- Outcome at the leaf slot of the walk: a stored Type was found, the
new Type was stored, or the slot was occupied by a nested level so the
fresh Type is returned WITHOUT being stored (lines 116-125). -/
inductive InsertRes where
  | hit (t : Nat)
  | stored
  | unstored
  deriving DecidableEq, Repr

/-- The loop of lines 99-115 followed by the leaf step of lines 116-124:
walk `path`, demoting a directly stored Type into a fresh nested level
when the walk must continue through its slot (lines 103-109), creating
empty levels as needed (lines 110-113); at the leaf, look up `last`.
`newT` is the id the caller will allocate if the slot is empty.
Returns the updated tree and what happened at the leaf. -/
def insertTree : List (Option Nat × CEntry) → List (Option Nat) → Option Nat → Nat →
    List (Option Nat × CEntry) × InsertRes
  | es, [], last, newT =>
    match aget es last with
    | some (.tyE t) => (es, .hit t)
    | some (.subE _) => (es, .unstored)
    | none => (aset es last (.tyE newT), .stored)
  | es, k :: rest, last, newT =>
    let level : List (Option Nat × CEntry) :=
      match aget es k with
      -- the demoted Type is keyed by its own signature token
      -- (`elem[TypeSignature]`); `create` gives every Type a token equal
      -- to its heap id in this model, so the key is `some t`
      | some (.tyE t) => [(some t, .tyE t)]
      | some (.subE sub) => sub
      | none => []
    let (level', res) := insertTree level rest last newT
    (aset es k (.subE level'), res)

/-! ### Class-type discovery (lines 290-312, 336-343) -/

/-- The `.name` of a function object. -/
def funcNameOf (σ : St) (id : Nat) : String :=
  ((aget σ.heap id).map (·.funcName)).getD ""

/-- Lines 336-343: `extractName(v)` — if `v` is an object with a
(possibly inherited) `constructor` property, replace it by that
property; then return `v.name` when `v` is a function.  The `in`
operator throws on `null`. -/
def extractName (σ : St) (v : JSVal) : Except Err (Option String) :=
  let step : Except Err JSVal :=
    if typeofStr v == "object" then
      match v with
      | .jsNull => .error .typeError
      | .jsObj id =>
        if chainHasCtor σ id then .ok ((chainCtor σ id).getD .jsUndefined) else .ok v
      | _ => .ok v
    else .ok v
  step.map fun w =>
    match w with
    | .jsFun id => some (funcNameOf σ id)
    | _ => none

/-- Lines 304-312: `getClassType(v)` — cached type if present, else a
Type named after the extracted name (`name ? named(name) : create()`,
so an empty name creates an anonymous Type), cached on `v`. -/
def getClassTypeM (v : JSVal) : M Nat := do
  let cached? ← restoreM v
  match cached? with
  | some t => pure t
  | none => do
    let σ ← getSt
    match extractName σ v with
    | .error e => throwE e
    | .ok name? => do
      let t ← (match name? with
        | some n => if n = "" then createM else namedM n
        | none => createM)
      storeM v t
      pure t

/-- Line 179 / 208: `Object.assign(result, { module, path })` — plain
writable `module`/`path` fields on the Type object. -/
def assignModPath (id : Nat) (m : Option String) (p : String) (σ : St) : St :=
  match aget σ.heap id with
  | none => σ
  | some r =>
    { σ with heap := aset σ.heap id { r with modField := m, pathField := some p } }

/-- Line 60: `type.constructor = object` — a plain own-property write. -/
def setCtorProp (id : Nat) (v : JSVal) (σ : St) : St :=
  match aget σ.heap id with
  | none => σ
  | some r => { σ with heap := aset σ.heap id { r with ctorProp := some v } }

/-- Heap ids of the global constructor functions referenced by the
source (`getPrimitiveType`, `Object.prototype.constructor`). -/
def idObjectGlobal : Nat := 0


/-- The ToString coercion performed by the error-message template
literal `Invalid type reference ${ref}` (line 86).  For an object it
needs a reachable `toString`; no object of this program defines an own
one, so the coercion succeeds exactly when the prototype chain reaches
`Object.prototype`, and throws a TypeError when the chain ends at `null`
(e.g. an `Object.create(null)` object).  Same id-decreasing guard as
`chainGo`. -/
def protoToStrGo (heap : List (Nat × HObj)) : Nat → Nat → Bool
  | 0, _ => false
  | fuel + 1, id =>
    match aget heap id with
    | none => false
    | some r =>
      match r.proto with
      | .objectProto => true
      | .nullProto => false
      | .other j => if j < id then protoToStrGo heap fuel j else false

/-- Whether `${.jsObj id}` succeeds (a `toString` is reachable). -/
def hasToString (σ : St) (id : Nat) : Bool := protoToStrGo σ.heap (id + 1) id

/-! ### The mutually recursive core: `type`, `complex`, `parse`
(lines 73-126 and 164-211).  Parsing a parameter string recurses through
`complex` and `type`; recursion depth is bounded by the name length, so
a fuel of (a small multiple of) the name length is always enough. -/

mutual

/-- Lines 73-87: `type(ref)` — strings go to the parser, `Typed` values
yield their `Type` property, Types pass through, classes resolve via
`getClassType`, anything else reaches the `throw` of line 86 — whose
message template coerces `ref` first, and that ToString throws a
TypeError when `ref` is a Symbol (template literals cannot coerce
symbols) or an object with no reachable `toString` (a null-prototype
object); only when the coercion succeeds is the invalid-reference Error
raised. -/
def typeF : Nat → JSVal → M Nat
  | 0, _ => throwE .outOfFuel
  | fuel + 1, ref =>
    match ref with
    | .jsStr s => parseF fuel s
    | _ => fun σ =>
      match isTyped σ ref with
      | .error e => (.error e, σ)
      | .ok true =>
        -- `return ref.Type` — isTyped guaranteed this is a Type object
        match ref with
        | .jsObj id =>
          match chainTypeProp σ id with
          | some (.jsObj tid) => (.ok tid, σ)
          | _ => (.error .typeError, σ)
        | _ => (.error .typeError, σ)
      | .ok false =>
        match isType σ ref with
        | .error e => (.error e, σ)
        | .ok true =>
          match ref with
          | .jsObj id => (.ok id, σ)
          | _ => (.error .typeError, σ)
        | .ok false =>
          if isClass ref then getClassTypeM ref σ
          else
            match ref with
            | .jsSym => (.error .typeError, σ)
            | .jsObj id =>
              if hasToString σ id then (.error .invalidReference, σ)
              else (.error .typeError, σ)
            | _ => (.error .invalidReference, σ)
  termination_by structural fuel _ => fuel

/-- Line 95: `typeArguments.map((arg) => type(arg))`. -/
def typeListF : Nat → List JSVal → M (List Nat)
  | 0, _ => throwE .outOfFuel
  | _fuel + 1, [] => pure []
  | fuel + 1, v :: rest => do
    let t ← typeF fuel v
    let ts ← typeListF fuel rest
    pure (t :: ts)
  termination_by structural fuel _ => fuel

/-- Lines 89-126: `complex(base, typeArguments)` — resolve the base and
arguments, then walk the interning tree by signature tokens.  The walk
(`insertTree`) mutates `ComplexMap` in place; on a hit the stored Type
is returned, on an empty leaf a fresh complex Type is created and
stored, and when the leaf holds a nested level the fresh Type is
returned without being stored (line 125). -/
def complexF : Nat → JSVal → List JSVal → M Nat
  | 0, _, _ => throwE .outOfFuel
  | fuel + 1, base, typeArgs => do
    let bid ← typeF fuel base
    let σb ← getSt
    let first := baseTypeOf σb bid
    let args ← typeListF fuel typeArgs
    let σ ← getSt
    let allSigs := (first :: args).map (chainSign σ)
    let pathSigs := allSigs.dropLast
    let lastSig := allSigs.getLastD none
    let (cmap', res) := insertTree σ.cmap pathSigs lastSig σ.nextId
    modifySt fun σ2 => { σ2 with cmap := cmap' }
    match res with
    | .hit t => pure t
    | .stored => createComplexM first args
    | .unstored => createComplexM first args
  termination_by structural fuel _ _ => fuel

/-- Lines 164-211: `parse(name)`.  Fast path through `Names` then
`PrimitiveNames`; otherwise split the module prefix, match the greedy
generic regex, resolve the base via `named`, and for a generic name
split the parameters at depth-0 commas, recurse through `complex`,
compute the canonical display name from the component toStringTags,
tag the result and register the canonical alias. -/
def parseF : Nat → String → M Nat
  | 0, _ => throwE .outOfFuel
  | fuel + 1, name => do
    let σ0 ← getSt
    match aget σ0.names name with
    | some t => pure t
    | none =>
      match aget σ0.primNames name with
      | some t => pure t
      | none => do
        let mf := jsSplit2 name
        let pp :=
          match matchGeneric mf.2 with
          | some (p, tp) => (p, some tp)
          | none => (mf.2, none)
        let key := if modTruthy mf.1 then (mf.1.getD "") ++ "::" ++ pp.1 else pp.1
        let result ← namedM key
        modifySt (assignModPath result mf.1 pp.1)
        match pp.2 with
        | none => pure result
        | some tp => do
          let params := splitParams tp
          let result2 ← complexF fuel (.jsObj result) (params.map JSVal.jsStr)
          let σ1 ← getSt
          -- line 198: `type[TypeArguments].map(...)` throws if absent
          match chainTypeArgs σ1 result2 with
          | none => throwE .typeError
          | some argIds =>
            -- line 199: `type[TypeReference][Symbol.toStringTag]`
            match chainTypeRef σ1 result2 with
            | none => throwE .typeError
            | some b => do
              let paramNames :=
                String.intercalate ", " (argIds.map fun a => (chainTag σ1 a).getD "")
              let canonical :=
                ((chainTag σ1 b).getD "undefined") ++ "<" ++ paramNames ++ ">"
              modifySt (defineTag result2 canonical)
              modifySt fun σ2 => { σ2 with names := aset σ2.names canonical result2 }
              modifySt (assignModPath result2 mf.1 pp.1)
              pure result2
  termination_by structural fuel _ => fuel

end

/-! ### The resolver `typeOf` (lines 213-224, 283-334) and registration
(lines 50-62).  Heap ids 0-5 are the global `Object`, `String`,
`Number`, `Boolean`, `Symbol` and `Function` constructors; ids 6-16 are
the Types created by the primitives module (src/src/primitives.ts), see
`initState` below. -/

def idStringGlobal : Nat := 1
def idNumberGlobal : Nat := 2
def idBooleanGlobal : Nat := 3
def idSymbolGlobal : Nat := 4
def idFunctionGlobal : Nat := 5

/-- Heap id of `Primitives.String` (the Type tagged "String"). -/
def primitivesString : Nat := 6
/-- Heap id of `Primitives.Number`. -/
def primitivesNumber : Nat := 7
/-- Heap id of `Primitives.Bigint`. -/
def primitivesBigint : Nat := 8
/-- Heap id of `Primitives.Boolean`. -/
def primitivesBoolean : Nat := 9
/-- Heap id of `Primitives.Undefined` and `Primitives.Unknown`: both are
`Typing.type("unknown")`, and the second module-initialisation call hits
the `Names` fast path, so they are the same object. -/
def primitivesUnknown : Nat := 10
/-- Heap id of `Primitives.Symbol`. -/
def primitivesSymbol : Nat := 11
/-- Heap id of `Primitives.Object`. -/
def primitivesObject : Nat := 12
/-- Heap id of `Primitives.Array`. -/
def primitivesArray : Nat := 13
/-- Heap id of `Primitives.Function`. -/
def primitivesFunction : Nat := 14
/-- Heap id of `Primitives.Type`. -/
def primitivesType : Nat := 15
/-- Heap id of `Primitives.Void`. -/
def primitivesVoid : Nat := 16

/-- Lines 314-334: `getPrimitiveType(v)` — arrays, the six well-known
global constructors, else the `typeof` string. -/
def getPrimitiveType (σ : St) (v : JSVal) : String :=
  let arr : Bool :=
    match v with
    | JSVal.jsObj id => ((aget σ.heap id).map (·.isArr)).getD false
    | _ => false
  if arr then "array"
  else if v = JSVal.jsFun idStringGlobal then "string"
  else if v = JSVal.jsFun idNumberGlobal then "number"
  else if v = JSVal.jsFun idBooleanGlobal then "boolean"
  else if v = JSVal.jsFun idSymbolGlobal then "symbol"
  else if v = JSVal.jsFun idObjectGlobal then "object"
  else if v = JSVal.jsFun idFunctionGlobal then "function"
  else typeofStr v

/-- Lines 250-252: `isPrototype(v)` — does the object directly own a
`constructor` property (`Object.getOwnPropertyNames`, own keys only). -/
def isPrototypeId (σ : St) (id : Nat) : Bool :=
  ((aget σ.heap id).map (·.ctorProp.isSome)).getD false

/-- Lines 300-302: `getPrototypeType(v)` — `getClassType(v.constructor)`.
Member access on `null`/`undefined` throws. -/
def getPrototypeTypeM (v : JSVal) : M Nat := fun σ =>
  match v with
  | .jsNull => (.error .typeError, σ)
  | .jsUndefined => (.error .typeError, σ)
  | .jsObj id => getClassTypeM ((chainCtor σ id).getD .jsUndefined) σ
  | .jsFun id => getClassTypeM ((chainCtor σ id).getD .jsUndefined) σ
  | _ => (.error .typeError, σ)

/-- Lines 290-298: `getInstanceType(v)` — cached type, else the direct
prototype's class Type (or `Primitives.Object` when the prototype is the
root `Object.prototype`), cached before returning. -/
def getInstanceTypeM (id : Nat) : M Nat := do
  let cached? ← restoreM (.jsObj id)
  match cached? with
  | some t => pure t
  | none => do
    let σ ← getSt
    let proto := ((aget σ.heap id).map (·.proto)).getD .nullProto
    let t ← (match proto with
      | .objectProto => pure primitivesObject
      | .nullProto => getPrototypeTypeM .jsNull
      | .other j => getPrototypeTypeM (.jsObj j))
    storeM (.jsObj id) t
    pure t

/-- Lines 283-288: `getObjectType(v)`. -/
def getObjectTypeM (id : Nat) : M Nat := fun σ =>
  if isPrototypeId σ id then getPrototypeTypeM (.jsObj id) σ
  else getInstanceTypeM id σ

/-- Lines 213-224: `typeOf(v)` — Types map to the "Type" meta-type;
objects and functions go through the cache then the class machinery;
primitives are classified by the `PrimitiveNames` table with the
"unknown" fallback. -/
def typeOfM (v : JSVal) : M Nat := fun σ =>
  match isType σ v with
  | .error e => (.error e, σ)
  | .ok true => (.ok primitivesType, σ)
  | .ok false =>
    if typeofStr v == "object" then
      match restoreM v σ with
      | (.ok (some t), σ') => (.ok t, σ')
      | (.ok none, σ') =>
        match v with
        | .jsObj id => getObjectTypeM id σ'
        | _ => (.error .typeError, σ')
      | (.error e, σ') => (.error e, σ')
    else if typeofStr v == "function" then
      match restoreM v σ with
      | (.ok (some t), σ') => (.ok t, σ')
      | (.ok none, σ') => getClassTypeM v σ'
      | (.error e, σ') => (.error e, σ')
    else
      (.ok ((aget σ.primNames (getPrimitiveType σ v)).getD primitivesUnknown), σ)

/-- Lines 58-62: `registerClass(name, object)` — parse the name, set the
`constructor` field on the Type, cache the Type on the constructor. -/
def registerClassM (fuel : Nat) (name : String) (obj : JSVal) : M Unit := do
  let t ← parseF fuel name
  modifySt (setCtorProp t obj)
  storeM obj t

/-- Lines 50-56: `register(name)` applied to a target — only class
(function) targets are processed, others are silently ignored. -/
def registerM (fuel : Nat) (name : String) (target : JSVal) : M Unit := do
  if isClass target then registerClassM fuel name target else pure ()

/-! ### Module initialisation

src/src/primitives.ts calls `Typing.type(name)` for the twelve primitive
display names; typing.ts then builds `PrimitiveNames` from the resulting
Type objects.  Heap ids 0-5 pre-exist as the global constructors. -/

def globalHeap : List (Nat × HObj) :=
  [(idObjectGlobal, { callable := true, funcName := "Object" }),
   (idStringGlobal, { callable := true, funcName := "String" }),
   (idNumberGlobal, { callable := true, funcName := "Number" }),
   (idBooleanGlobal, { callable := true, funcName := "Boolean" }),
   (idSymbolGlobal, { callable := true, funcName := "Symbol" }),
   (idFunctionGlobal, { callable := true, funcName := "Function" })]

def initSt0 : St :=
  { heap := globalHeap, names := [], primNames := [], cmap := [], nextId := 6 }

deriving instance DecidableEq for Except

/-! The twelve `Typing.type(...)` calls of src/src/primitives.ts, in
source order, written as one definition per step (the staging keeps
kernel evaluation of later concrete theorems shared and cheap). -/

def ist1 : St := (typeF 20 (.jsStr "String") initSt0).2
def ist2 : St := (typeF 20 (.jsStr "Number") ist1).2
def ist3 : St := (typeF 20 (.jsStr "Bigint") ist2).2
def ist4 : St := (typeF 20 (.jsStr "Boolean") ist3).2
def ist5 : St := (typeF 20 (.jsStr "unknown") ist4).2
def ist6 : St := (typeF 20 (.jsStr "Symbol") ist5).2
def ist7 : St := (typeF 20 (.jsStr "Object") ist6).2
def ist8 : St := (typeF 20 (.jsStr "Array") ist7).2
def ist9 : St := (typeF 20 (.jsStr "Function") ist8).2
def ist10 : St := (typeF 20 (.jsStr "unknown") ist9).2
def ist11 : St := (typeF 20 (.jsStr "Type") ist10).2
def ist12 : St := (typeF 20 (.jsStr "void") ist11).2

/-- State after module initialisation: the primitive Types exist, their
display names are in `Names`, and `PrimitiveNames` (typing.ts lines
9-22) maps the twelve lowercase keys to the Types those calls created
(the id constants; `initState_seeds` checks they are the right ones). -/
def initState : St :=
  { ist12 with primNames :=
      [("string", primitivesString), ("number", primitivesNumber),
       ("bigint", primitivesBigint), ("boolean", primitivesBoolean),
       ("undefined", primitivesUnknown), ("symbol", primitivesSymbol),
       ("array", primitivesArray), ("object", primitivesObject),
       ("function", primitivesFunction), ("unknown", primitivesUnknown),
       ("type", primitivesType), ("void", primitivesVoid)] }

/-- Sanity check: each initialisation call returned the id constant used
in the `PrimitiveNames` table (`Undefined` and `Unknown` are the same
object: the tenth call hits the `Names` fast path of `parse`). -/
theorem initState_seeds :
    (typeF 20 (.jsStr "String") initSt0).1 = .ok primitivesString ∧
    (typeF 20 (.jsStr "Number") ist1).1 = .ok primitivesNumber ∧
    (typeF 20 (.jsStr "Bigint") ist2).1 = .ok primitivesBigint ∧
    (typeF 20 (.jsStr "Boolean") ist3).1 = .ok primitivesBoolean ∧
    (typeF 20 (.jsStr "unknown") ist4).1 = .ok primitivesUnknown ∧
    (typeF 20 (.jsStr "Symbol") ist5).1 = .ok primitivesSymbol ∧
    (typeF 20 (.jsStr "Object") ist6).1 = .ok primitivesObject ∧
    (typeF 20 (.jsStr "Array") ist7).1 = .ok primitivesArray ∧
    (typeF 20 (.jsStr "Function") ist8).1 = .ok primitivesFunction ∧
    (typeF 20 (.jsStr "unknown") ist9).1 = .ok primitivesUnknown ∧
    (typeF 20 (.jsStr "Type") ist10).1 = .ok primitivesType ∧
    (typeF 20 (.jsStr "void") ist11).1 = .ok primitivesVoid ∧
    initState.nextId = 17 := by decide

/-- Every heap id is below the allocator cursor (true in every reachable
state; stated as a Bool so concrete states can discharge it). -/
def heapFresh (σ : St) : Bool := σ.heap.all fun p => p.1 < σ.nextId

theorem aget_all_lt {l : List (Nat × HObj)} {n : Nat}
    (h : l.all (fun p => p.1 < n) = true) {k : Nat} {r : HObj}
    (hk : aget l k = some r) : k < n := by
  induction l with
  | nil => simp [aget] at hk
  | cons p t ih =>
    simp only [List.all_cons, Bool.and_eq_true] at h
    obtain ⟨k0, r0⟩ := p
    simp only [aget] at hk
    by_cases hk0 : k0 = k
    · subst hk0
      exact of_decide_eq_true h.1
    · simp only [if_neg hk0] at hk
      exact ih h.2 hk

theorem heapFresh_lt {σ : St} (h : heapFresh σ = true) {k : Nat} {r : HObj}
    (hk : aget σ.heap k = some r) : k < σ.nextId :=
  aget_all_lt h hk

/-! ### Concrete scenario states

User-level objects supplied by the host program (class constructors,
prototypes, instances, frozen objects) are added to the heap at fresh
ids; the allocator cursor is bumped past them. -/

/-- A host function whose `.name` is the primitive name "string". -/
def c5fun : HObj := { callable := true, funcName := "string" }

def c5st : St := { initState with heap := aset initState.heap 100 c5fun, nextId := 101 }

def c5s1 : Except Err Nat × St := typeOfM (.jsFun 100) c5st

def c5s2 : Except Err Nat × St := parseF 50 "string" c5s1.2

/-- A registered class `Foo`, its prototype object (owning `constructor`)
and a fresh instance whose direct prototype it is. -/
def c9foo : HObj := { callable := true, funcName := "Foo" }

def c9proto : HObj := { ctorProp := some (.jsFun 100) }

def c9inst : HObj := { proto := .other 101 }

def c9st : St := { initState with
  heap := aset (aset (aset initState.heap 100 c9foo) 101 c9proto) 102 c9inst,
  nextId := 103 }

def c9s1 : Except Err Unit × St := registerM 50 "Foo" (.jsFun 100) c9st

def c9s2 : Except Err Nat × St := typeOfM (.jsObj 102) c9s1.2

/-- Two distinct host functions sharing the same `.name`. -/
def c10fun : HObj := { callable := true, funcName := "Dup" }

def c10st : St := { initState with
  heap := aset (aset initState.heap 100 c10fun) 101 c10fun, nextId := 102 }

/-- A frozen (non-extensible) host object. -/
def c7frozen : HObj := { extensible := false }

def c7st : St := { initState with heap := aset initState.heap 100 c7frozen, nextId := 101 }

def c7s1 : Except Err Unit × St := storeM (.jsObj 100) primitivesString c7st

/-- Interner scenario: three named base/argument types. -/
def c1s1 : Except Err Nat × St := parseF 50 "B" initState

def c1s2 : Except Err Nat × St := parseF 50 "A1" c1s1.2

def c1s3 : Except Err Nat × St := parseF 50 "A2" c1s2.2

def c1s4 : Except Err Nat × St := complexF 50 (.jsObj 17) [.jsObj 18, .jsObj 19] c1s3.2

def c1s5 : Except Err Nat × St := complexF 50 (.jsObj 17) [.jsObj 18] c1s4.2

def c1s6 : Except Err Nat × St := complexF 50 (.jsObj 17) [.jsObj 18] c1s5.2

/-- Nested-generic parse of the C2 claim. -/
def c2run : Except Err Nat × St := parseF 60 "List<Map<string, number>>" initState

/-- Generic parse interleaving of the C4 counterexample. -/
def c4s1 : Except Err Nat × St := parseF 60 "P<string>" initState

def c4s2 : Except Err Nat × St := parseF 60 "P<string, string>" c4s1.2

def c4s3 : Except Err Nat × St := parseF 60 "P<string>" c4s2.2

/-- Round-trip parse of the C8 claim. -/
def c8run1 : Except Err Nat × St := parseF 60 "Map<string, number>" initState

def c8run2 : Except Err Nat × St := parseF 60 "Map<String, Number>" c8run1.2

/-! ### Toolkit lemmas for symbolic reasoning -/

theorem mbind_ok {α β : Type} {x : M α} {f : α → M β} {σ σ' : St} {a : α}
    (h : x σ = (.ok a, σ')) : mbind x f σ = f a σ' := by
  simp [mbind, h]

theorem mbind_err {α β : Type} {x : M α} {f : α → M β} {σ σ' : St} {e : Err}
    (h : x σ = (.error e, σ')) : mbind x f σ = (.error e, σ') := by
  simp [mbind, h]

theorem aset_aset_self {κ α : Type} [DecidableEq κ] (l : List (κ × α)) (k : κ) (v v' : α) :
    aset (aset l k v) k v' = aset l k v' := by
  induction l with
  | nil => simp [aset]
  | cons h t ih =>
    obtain ⟨k0, v0⟩ := h
    by_cases hk : k0 = k <;> simp [aset, hk, ih]

theorem chainGet_own {α : Type} {σ : St} {f : HObj → Option α} {op : Option α}
    {id : Nat} {r : HObj} {v : α} (hr : aget σ.heap id = some r) (hv : f r = some v) :
    chainGet σ f op id = some v := by
  simp [chainGet, chainGo, hr, hv]

theorem chainGet_objProto {α : Type} {σ : St} {f : HObj → Option α} {op : Option α}
    {id : Nat} {r : HObj} (hr : aget σ.heap id = some r) (hv : f r = none)
    (hp : r.proto = .objectProto) : chainGet σ f op id = op := by
  simp [chainGet, chainGo, hr, hv, hp]

theorem chainGo_congr {α : Type} {heap : List (Nat × HObj)} {f : HObj → Option α}
    {op : Option α} :
    ∀ id f1 f2, id < f1 → id < f2 →
      chainGo heap f op f1 id = chainGo heap f op f2 id := by
  intro id
  induction id using Nat.strong_induction_on with
  | _ id ih =>
    intro f1 f2 h1 h2
    obtain ⟨a, rfl⟩ : ∃ a, f1 = a + 1 := ⟨f1 - 1, by omega⟩
    obtain ⟨b, rfl⟩ : ∃ b, f2 = b + 1 := ⟨f2 - 1, by omega⟩
    cases hr : aget heap id with
    | none => simp [chainGo, hr]
    | some r =>
      cases hv : f r with
      | some v => simp [chainGo, hr, hv]
      | none =>
        cases hp : r.proto with
        | nullProto => simp [chainGo, hr, hv, hp]
        | objectProto => simp [chainGo, hr, hv, hp]
        | other j =>
          by_cases hj : j < id
          · simp only [chainGo, hr, hv, hp, if_pos hj]
            exact ih j hj a b (by omega) (by omega)
          · simp [chainGo, hr, hv, hp, hj]

theorem chainGet_step {α : Type} {σ : St} {f : HObj → Option α} {op : Option α}
    {id j : Nat} {r : HObj} (hr : aget σ.heap id = some r) (hv : f r = none)
    (hp : r.proto = .other j) (hj : j < id) :
    chainGet σ f op id = chainGet σ f op j := by
  show chainGo σ.heap f op (id + 1) id = chainGet σ f op j
  simp only [chainGo, hr, hv, hp, if_pos hj]
  exact chainGo_congr j id (j + 1) hj (by omega)

/-! Heap-field writers touch only `heap`, and only at their own id. -/

theorem defineTag_names (id : Nat) (v : String) (σ : St) :
    (defineTag id v σ).names = σ.names := by
  unfold defineTag
  split
  · rfl
  · split <;> rfl

theorem defineTag_aget_ne {id j : Nat} (v : String) (σ : St) (h : id ≠ j) :
    aget (defineTag id v σ).heap j = aget σ.heap j := by
  unfold defineTag
  split
  · rfl
  · split
    · exact aget_aset_ne _ _ _ _ h
    · rfl

theorem defineCached_names (id : Nat) (v : Nat) (σ : St) :
    (defineCached id v σ).names = σ.names := by
  unfold defineCached
  split
  · rfl
  · split <;> rfl

theorem defineCached_aget_ne {id j : Nat} (v : Nat) (σ : St) (h : id ≠ j) :
    aget (defineCached id v σ).heap j = aget σ.heap j := by
  unfold defineCached
  split
  · rfl
  · split
    · exact aget_aset_ne _ _ _ _ h
    · rfl

theorem defineCached_self {id v : Nat} {σ : St} {r : HObj}
    (hr : aget σ.heap id = some r) (hc : r.cached = none) (he : r.extensible = true) :
    aget (defineCached id v σ).heap id = some { r with cached := some v } := by
  unfold defineCached
  rw [hr]
  simp only [hc, he, and_self, if_pos]
  exact aget_aset_self _ _ _

theorem defineTypeRef_names (id : Nat) (v : Nat) (σ : St) :
    (defineTypeRef id v σ).names = σ.names := by
  unfold defineTypeRef
  split
  · rfl
  · split <;> rfl

theorem defineTypeArgs_names (id : Nat) (v : List Nat) (σ : St) :
    (defineTypeArgs id v σ).names = σ.names := by
  unfold defineTypeArgs
  split
  · rfl
  · split <;> rfl

theorem assignModPath_names (id : Nat) (m : Option String) (p : String) (σ : St) :
    (assignModPath id m p σ).names = σ.names := by
  unfold assignModPath
  split <;> rfl

theorem assignModPath_aget_ne {id j : Nat} (m : Option String) (p : String) (σ : St)
    (h : id ≠ j) : aget (assignModPath id m p σ).heap j = aget σ.heap j := by
  unfold assignModPath
  split
  · rfl
  · exact aget_aset_ne _ _ _ _ h

theorem setCtorProp_names (id : Nat) (v : JSVal) (σ : St) :
    (setCtorProp id v σ).names = σ.names := by
  unfold setCtorProp
  split <;> rfl

theorem setCtorProp_aget_ne {id j : Nat} (v : JSVal) (σ : St) (h : id ≠ j) :
    aget (setCtorProp id v σ).heap j = aget σ.heap j := by
  unfold setCtorProp
  split
  · rfl
  · exact aget_aset_ne _ _ _ _ h

/-- State after a `create()` call. -/
def createdSt (σ : St) : St :=
  { σ with heap := aset σ.heap σ.nextId { sign := some σ.nextId },
           nextId := σ.nextId + 1 }

theorem createM_eq (σ : St) : createM σ = (.ok σ.nextId, createdSt σ) := rfl

/-- State produced by a `named(n)` miss: a fresh Type tagged `n`,
registered under `n`. -/
def namedFreshSt (σ : St) (n : String) : St :=
  { σ with
    heap := aset σ.heap σ.nextId { sign := some σ.nextId, tag := some n },
    names := aset σ.names n σ.nextId,
    nextId := σ.nextId + 1 }

theorem namedM_hit {σ : St} {n : String} {t : Nat} (h : aget σ.names n = some t) :
    namedM n σ = (.ok t, σ) := by
  simp only [namedM, bind_eq_mbind, pure_eq_mret, mbind, getSt, h, mret]

theorem namedM_miss {σ : St} {n : String} (h : aget σ.names n = none) :
    namedM n σ = (.ok σ.nextId, namedFreshSt σ n) := by
  simp only [namedM, bind_eq_mbind, pure_eq_mret, mbind, getSt, h, mret, createM,
    modifySt, defineTag, namedFreshSt]
  rw [aget_aset_self]
  simp [aset_aset_self]

theorem restoreM_fun {σ : St} (id : Nat) :
    restoreM (.jsFun id) σ = (.ok ((aget σ.heap id).bind (·.cached)), σ) := by
  simp [restoreM, typeofStr]

theorem restoreM_obj {σ : St} (id : Nat) :
    restoreM (.jsObj id) σ = (.ok ((aget σ.heap id).bind (·.cached)), σ) := by
  simp [restoreM, typeofStr]

theorem storeM_fun {σ : St} (id t : Nat) :
    storeM (.jsFun id) t σ = (.ok (), defineCached id t σ) := by
  simp [storeM, typeofStr]

theorem storeM_obj {σ : St} (id t : Nat) :
    storeM (.jsObj id) t σ = (.ok (), defineCached id t σ) := by
  simp [storeM, typeofStr]

/-- Fast path of `parse` (lines 165-167): a registered name is returned
immediately with no state change. -/
theorem parseF_fastpath {σ : St} {n : String} {t : Nat} (fuel : Nat)
    (h : aget σ.names n = some t) : parseF (fuel + 1) n σ = (.ok t, σ) := by
  simp only [parseF, bind_eq_mbind, pure_eq_mret, mbind, getSt, h, mret]

/-- An uncached named function resolves through `named(name)` and is
then cached (lines 304-312 with lines 336-343). -/
theorem getClassTypeM_fun_uncached {σ : St} {id : Nat} {r : HObj}
    (hr : aget σ.heap id = some r) (hc : r.cached = none) (hn : ¬ r.funcName = "") :
    getClassTypeM (.jsFun id) σ =
      mbind (namedM r.funcName)
        (fun t => mbind (storeM (.jsFun id) t) (fun _ => mret t)) σ := by
  simp only [getClassTypeM, bind_eq_mbind, pure_eq_mret, mbind, getSt, mret,
    restoreM_fun, hr, hc, Option.bind, extractName, typeofStr, funcNameOf,
    show ("function" == "object") = false from rfl, Bool.false_eq_true, if_false,
    Except.map, Option.map, Option.getD, if_neg hn]

/-- `typeOf` on an uncached function value defers to `getClassType`
(lines 220-222). -/
theorem typeOfM_fun_uncached {σ : St} {id : Nat} {r : HObj}
    (hr : aget σ.heap id = some r) (hc : r.cached = none) :
    typeOfM (.jsFun id) σ = getClassTypeM (.jsFun id) σ := by
  simp only [typeOfM, isType, typeofStr]
  simp only [show ("function" == "object") = false from rfl, Bool.false_eq_true,
    if_false, show ("function" == "function") = true from rfl, if_true]
  rw [restoreM_fun, hr]
  simp [hc]

/-- C10: two distinct function values with the same non-empty `.name`,
neither carrying a cached or registered Type, resolve through
`typeOf` to the reference-identical Type object: `getClassType` keys the
lookup by the bare name string through `named`, so the first call binds
(or finds) `Names[name]` and the second call returns the same object. -/
theorem c10_shared_name_shared_type {σ : St} {f g : Nat} {rf rg : HObj} {n : String}
    (hfresh : heapFresh σ = true)
    (hf : aget σ.heap f = some rf) (hg : aget σ.heap g = some rg)
    (hfc : rf.cached = none) (hgc : rg.cached = none)
    (hfn : rf.funcName = n) (hgn : rg.funcName = n)
    (hne : ¬ n = "") (hfg : f ≠ g) :
    ∃ t σ1 σ2,
      typeOfM (.jsFun f) σ = (.ok t, σ1) ∧
      typeOfM (.jsFun g) σ1 = (.ok t, σ2) ∧
      compareT σ2 t t = true := by
  have hcmp : ∀ σ' t, compareT σ' t t = true := by
    intro σ' t
    simp [compareT]
  cases hlook : aget σ.names n with
  | some t =>
    -- the name is already registered; both calls return the entry
    refine ⟨t, defineCached f t σ, defineCached g t (defineCached f t σ), ?_, ?_, hcmp _ _⟩
    · rw [typeOfM_fun_uncached hf hfc, getClassTypeM_fun_uncached hf hfc (hfn ▸ hne)]
      rw [mbind_ok (namedM_hit (hfn ▸ hlook))]
      rw [mbind_ok (storeM_fun f t)]
      rfl
    · have hg1 : aget (defineCached f t σ).heap g = some rg := by
        rw [defineCached_aget_ne _ _ hfg, hg]
      rw [typeOfM_fun_uncached hg1 hgc, getClassTypeM_fun_uncached hg1 hgc (hgn ▸ hne)]
      have hlook1 : aget (defineCached f t σ).names n = some t := by
        rw [defineCached_names, hlook]
      rw [mbind_ok (namedM_hit (hgn ▸ hlook1))]
      rw [mbind_ok (storeM_fun g t)]
      rfl
  | none =>
    -- the first call creates the named Type, the second finds it
    have hfT : f ≠ σ.nextId := by
      have := heapFresh_lt hfresh hf
      omega
    have hgT : g ≠ σ.nextId := by
      have := heapFresh_lt hfresh hg
      omega
    refine ⟨σ.nextId, defineCached f σ.nextId (namedFreshSt σ n),
      defineCached g σ.nextId (defineCached f σ.nextId (namedFreshSt σ n)), ?_, ?_,
      hcmp _ _⟩
    · rw [typeOfM_fun_uncached hf hfc, getClassTypeM_fun_uncached hf hfc (hfn ▸ hne)]
      rw [mbind_ok (namedM_miss (hfn ▸ hlook))]
      rw [mbind_ok (storeM_fun f σ.nextId)]
      rw [hfn]
      rfl
    · have hg1 : aget (defineCached f σ.nextId (namedFreshSt σ n)).heap g = some rg := by
        rw [defineCached_aget_ne _ _ hfg]
        show aget (aset σ.heap σ.nextId _) g = some rg
        rw [aget_aset_ne _ _ _ _ (Ne.symm hgT), hg]
      rw [typeOfM_fun_uncached hg1 hgc, getClassTypeM_fun_uncached hg1 hgc (hgn ▸ hne)]
      have hlook1 : aget (defineCached f σ.nextId (namedFreshSt σ n)).names n
          = some σ.nextId := by
        rw [defineCached_names]
        exact aget_aset_self _ _ _
      rw [hgn]
      rw [mbind_ok (namedM_hit hlook1)]
      rw [mbind_ok (storeM_fun g σ.nextId)]
      rfl

/-! ### Interner lemmas for C1 -/

theorem defineTypeRef_aget_ne {id j : Nat} (v : Nat) (σ : St) (h : id ≠ j) :
    aget (defineTypeRef id v σ).heap j = aget σ.heap j := by
  unfold defineTypeRef
  split
  · rfl
  · split
    · exact aget_aset_ne _ _ _ _ h
    · rfl

theorem defineTypeArgs_aget_ne {id j : Nat} (v : List Nat) (σ : St) (h : id ≠ j) :
    aget (defineTypeArgs id v σ).heap j = aget σ.heap j := by
  unfold defineTypeArgs
  split
  · rfl
  · split
    · exact aget_aset_ne _ _ _ _ h
    · rfl

/-- A heap object that is a well-formed Type produced by `create`: it
carries a signature, has no `Type` property and sits directly on
`Object.prototype` (Bool-valued so witnesses can discharge it). -/
def tyOkB (σ : St) (id : Nat) : Bool :=
  match aget σ.heap id with
  | some r => r.sign.isSome && r.typeProp.isNone && (r.proto == ProtoRef.objectProto)
  | none => false

theorem tyOkB_elim {σ : St} {id : Nat} (h : tyOkB σ id = true) :
    ∃ r : HObj, aget σ.heap id = some r ∧ r.sign.isSome = true ∧
      r.typeProp = none ∧ r.proto = .objectProto := by
  unfold tyOkB at h
  cases hr : aget σ.heap id with
  | none => rw [hr] at h; exact absurd h (by simp)
  | some r =>
    rw [hr] at h
    simp only [Bool.and_eq_true, beq_iff_eq, Option.isNone_iff_eq_none] at h
    exact ⟨r, rfl, h.1.1, h.1.2, h.2⟩

/-- `type(t)` passes a Type object through unchanged (lines 80-82). -/
theorem typeF_type {σ : St} {id : Nat} {r : HObj} (fuel : Nat)
    (hr : aget σ.heap id = some r) (hs : r.sign.isSome = true)
    (htp : r.typeProp = none) (hp : r.proto = .objectProto) :
    typeF (fuel + 1) (.jsObj id) σ = (.ok id, σ) := by
  have h1 : chainTypeProp σ id = none := chainGet_objProto hr htp hp
  obtain ⟨s, hs'⟩ := Option.isSome_iff_exists.mp hs
  have h2 : chainSign σ id = some s := chainGet_own hr hs'
  simp only [typeF, isTyped, isType, typeofStr, h1, h2,
    show ("object" == "object") = true from rfl, if_true, Option.getD,
    show ("undefined" == "object") = false from rfl, Bool.false_eq_true, if_false,
    Option.isSome]

/-- Resolving a list of Type objects through `type` leaves the state
unchanged and returns the ids. -/
theorem typeListF_types {σ : St} :
    ∀ (args : List Nat) (fuel : Nat), args.length ≤ fuel →
    (∀ a ∈ args, tyOkB σ a = true) →
    typeListF (fuel + 1) (args.map .jsObj) σ = (.ok args, σ) := by
  intro args
  induction args with
  | nil => intro fuel _ _; rfl
  | cons a rest ih =>
    intro fuel hlen hok
    obtain ⟨f', rfl⟩ : ∃ f', fuel = f' + 1 := ⟨fuel - 1, by simp at hlen; omega⟩
    obtain ⟨r, hr, hs, htp, hp⟩ := tyOkB_elim (hok a (by simp))
    show typeListF (f' + 1 + 1) (JSVal.jsObj a :: rest.map .jsObj) σ = (.ok (a :: rest), σ)
    simp only [typeListF, bind_eq_mbind, pure_eq_mret]
    rw [mbind_ok (typeF_type f' hr hs htp hp)]
    rw [mbind_ok (ih f' (by simp at hlen; omega) (fun x hx => hok x (by simp [hx])))]
    rfl

/-- After `insertTree` stored the new Type at the leaf, walking the same
path again finds it. -/
theorem insertTree_stored_hit {path : List (Option Nat)} :
    ∀ {es : List (Option Nat × CEntry)} {last : Option Nat} {n n' : Nat},
    (insertTree es path last n).2 = .stored →
    (insertTree (insertTree es path last n).1 path last n').2 = .hit n := by
  induction path with
  | nil =>
    intro es last n n' h
    cases hl : aget es last with
    | none =>
      have e1 : insertTree es [] last n = (aset es last (.tyE n), .stored) := by
        simp [insertTree, hl]
      rw [e1]
      simp [insertTree, aget_aset_self]
    | some e =>
      cases e <;> simp [insertTree, hl] at h
  | cons k rest ih =>
    intro es last n n' h
    simp only [insertTree] at h ⊢
    cases hres : insertTree (match aget es k with
        | some (.tyE t) => [(some t, .tyE t)]
        | some (.subE sub) => sub
        | none => []) rest last n with
    | mk level' res =>
      have h' : res = InsertRes.stored := by
        have := h
        rw [hres] at this
        exact this
      have h2 := @ih (match aget es k with
        | some (.tyE t) => [(some t, .tyE t)]
        | some (.subE sub) => sub
        | none => []) last n n'
        (by rw [hres]; exact h')
      rw [hres] at h2
      simp only [aget_aset_self]
      exact h2

/-- A walk that hit a stored Type leaves a tree on which the same walk
hits the same Type. -/
theorem insertTree_hit_hit {path : List (Option Nat)} :
    ∀ {es : List (Option Nat × CEntry)} {last : Option Nat} {n n' t : Nat},
    (insertTree es path last n).2 = .hit t →
    (insertTree (insertTree es path last n).1 path last n').2 = .hit t := by
  induction path with
  | nil =>
    intro es last n n' t h
    cases hl : aget es last with
    | none =>
      simp [insertTree, hl] at h
    | some e =>
      cases e with
      | tyE u =>
        have e1 : insertTree es [] last n = (es, .hit u) := by simp [insertTree, hl]
        rw [e1] at h ⊢
        simp only at h
        simp [insertTree, hl, h]
      | subE sub => simp [insertTree, hl] at h
  | cons k rest ih =>
    intro es last n n' t h
    simp only [insertTree] at h ⊢
    cases hres : insertTree (match aget es k with
        | some (.tyE u) => [(some u, .tyE u)]
        | some (.subE sub) => sub
        | none => []) rest last n with
    | mk level' res =>
      have h' : res = InsertRes.hit t := by
        have := h
        rw [hres] at this
        exact this
      have h2 := @ih (match aget es k with
        | some (.tyE u) => [(some u, .tyE u)]
        | some (.subE sub) => sub
        | none => []) last n n' t
        (by rw [hres]; exact h')
      rw [hres] at h2
      simp only [aget_aset_self]
      exact h2

theorem defineTypeRef_cmap (id v : Nat) (σ : St) :
    (defineTypeRef id v σ).cmap = σ.cmap := by
  unfold defineTypeRef
  split
  · rfl
  · split <;> rfl

theorem defineTypeArgs_cmap (id : Nat) (v : List Nat) (σ : St) :
    (defineTypeArgs id v σ).cmap = σ.cmap := by
  unfold defineTypeArgs
  split
  · rfl
  · split <;> rfl

theorem defineTypeRef_nextId (id v : Nat) (σ : St) :
    (defineTypeRef id v σ).nextId = σ.nextId := by
  unfold defineTypeRef
  split
  · rfl
  · split <;> rfl

theorem defineTypeArgs_nextId (id : Nat) (v : List Nat) (σ : St) :
    (defineTypeArgs id v σ).nextId = σ.nextId := by
  unfold defineTypeArgs
  split
  · rfl
  · split <;> rfl

theorem tyOkB_congr {σ σ' : St} {a : Nat} (h : aget σ'.heap a = aget σ.heap a) :
    tyOkB σ' a = tyOkB σ a := by
  unfold tyOkB
  rw [h]

/-- Signature path of a `complex(b, args)` walk. -/
def sigList (σ : St) (b : Nat) (args : List Nat) : List (Option Nat) :=
  (b :: args).map (chainSign σ)

/-- Result of `complex` as a function of the interning-walk outcome:
a hit returns the stored Type; otherwise a fresh complex Type is
created (and the tree keeps the promotions made by the walk). -/
def complexOutcome (σ : St) (b : Nat) (args : List Nat)
    (cm' : List (Option Nat × CEntry)) : InsertRes → Except Err Nat × St
  | .hit t => (.ok t, { σ with cmap := cm' })
  | .stored => (.ok σ.nextId,
      defineTypeArgs σ.nextId args
        (defineTypeRef σ.nextId b (createdSt { σ with cmap := cm' })))
  | .unstored => (.ok σ.nextId,
      defineTypeArgs σ.nextId args
        (defineTypeRef σ.nextId b (createdSt { σ with cmap := cm' })))

/-- Evaluation of `complex` on already-resolved Type arguments: the base
and arguments pass through `type` unchanged, and the result is decided
by the interning walk. -/
theorem complexF_eval {σ : St} {b : Nat} {args : List Nat} {rb : HObj} (fuel : Nat)
    {cm' : List (Option Nat × CEntry)} {res : InsertRes}
    (hb : aget σ.heap b = some rb) (hbs : rb.sign.isSome = true)
    (hbt : rb.typeProp = none) (hbp : rb.proto = .objectProto)
    (hbr : rb.typeRef = none)
    (hargs : ∀ a ∈ args, tyOkB σ a = true) (hfuel : args.length ≤ fuel)
    (hins : insertTree σ.cmap (sigList σ b args).dropLast
      ((sigList σ b args).getLastD none) σ.nextId = (cm', res)) :
    complexF (fuel + 2) (.jsObj b) (args.map .jsObj) σ =
      complexOutcome σ b args cm' res := by
  have hbase : baseTypeOf σ b = b := by
    unfold baseTypeOf
    rw [show chainTypeRef σ b = none from chainGet_objProto hb hbr hbp]
    rfl
  simp only [sigList] at hins
  simp only [complexF, bind_eq_mbind, pure_eq_mret]
  rw [mbind_ok (typeF_type fuel hb hbs hbt hbp)]
  rw [mbind_ok (show getSt σ = (.ok σ, σ) from rfl)]
  rw [hbase]
  rw [mbind_ok (typeListF_types args fuel hfuel hargs)]
  rw [mbind_ok (show getSt σ = (.ok σ, σ) from rfl)]
  rw [hins]
  simp only [modifySt, mbind, mret]
  cases res with
  | hit t => rfl
  | stored =>
    simp only [complexOutcome, createComplexM, bind_eq_mbind, pure_eq_mret, mbind,
      createM_eq, modifySt, mret]
  | unstored =>
    simp only [complexOutcome, createComplexM, bind_eq_mbind, pure_eq_mret, mbind,
      createM_eq, modifySt, mret]

/-- C1 amended: when the interning-tree slot for the full path
`[B, A1..An]` is not occupied by a nested level (i.e. no interleaved
call interning a strictly longer argument list sharing this path as a
prefix has demoted it), two successive `complex(B, [A1..An])` calls
return the reference-identical Complex Type object: the first call
either finds the stored Type or creates and stores it, and the second
call hits it.  (`c1_counterexample` shows the property fails without
the slot condition.) -/
theorem c1_amended {σ : St} {b : Nat} {args : List Nat} {rb : HObj} (fuel : Nat)
    (hfresh : heapFresh σ = true)
    (hb : aget σ.heap b = some rb) (hbs : rb.sign.isSome = true)
    (hbt : rb.typeProp = none) (hbp : rb.proto = .objectProto)
    (hbr : rb.typeRef = none)
    (hargs : ∀ a ∈ args, tyOkB σ a = true) (hfuel : args.length ≤ fuel)
    (hleaf : (insertTree σ.cmap (sigList σ b args).dropLast
      ((sigList σ b args).getLastD none) σ.nextId).2 ≠ .unstored) :
    ∃ t σ1 σ2,
      complexF (fuel + 2) (.jsObj b) (args.map .jsObj) σ = (.ok t, σ1) ∧
      complexF (fuel + 2) (.jsObj b) (args.map .jsObj) σ1 = (.ok t, σ2) := by
  have hbN := heapFresh_lt hfresh hb
  cases hins : insertTree σ.cmap (sigList σ b args).dropLast
      ((sigList σ b args).getLastD none) σ.nextId with
  | mk cm1 r1 =>
    have h1 := complexF_eval fuel hb hbs hbt hbp hbr hargs hfuel hins
    rw [hins] at hleaf
    cases r1 with
    | unstored => exact absurd rfl hleaf
    | hit t =>
      -- first call: pure cache hit; only the cmap changed
      have hsig1 : sigList { σ with cmap := cm1 } b args = sigList σ b args := rfl
      cases hins2 : insertTree cm1 (sigList σ b args).dropLast
          ((sigList σ b args).getLastD none) σ.nextId with
      | mk cm2 r2 =>
        have hhit0 := @insertTree_hit_hit (sigList σ b args).dropLast
          σ.cmap ((sigList σ b args).getLastD none)
          σ.nextId σ.nextId t (by rw [hins])
        rw [hins] at hhit0
        have hhit : (insertTree cm1 (sigList σ b args).dropLast
            ((sigList σ b args).getLastD none) σ.nextId).2 = InsertRes.hit t := hhit0
        rw [hins2] at hhit
        have hr2 : r2 = InsertRes.hit t := hhit
        subst hr2
        have hins2a : insertTree ({ σ with cmap := cm1 } : St).cmap
            (sigList { σ with cmap := cm1 } b args).dropLast
            ((sigList { σ with cmap := cm1 } b args).getLastD none)
            ({ σ with cmap := cm1 } : St).nextId = (cm2, InsertRes.hit t) := by
          rw [hsig1]
          exact hins2
        have h2 := complexF_eval (σ := { σ with cmap := cm1 })
          fuel hb hbs hbt hbp hbr hargs hfuel hins2a
        exact ⟨t, { σ with cmap := cm1 },
          { ({ σ with cmap := cm1 } : St) with cmap := cm2 }, h1, h2⟩
    | stored =>
      -- first call created and stored the complex Type σ.nextId
      set T := σ.nextId with hT
      set σ1 := defineTypeArgs T args (defineTypeRef T b (createdSt { σ with cmap := cm1 }))
        with hσ1
      have htrans : ∀ x, x < σ.nextId → aget σ1.heap x = aget σ.heap x := by
        intro x hx
        rw [hσ1, defineTypeArgs_aget_ne _ _ (by omega), defineTypeRef_aget_ne _ _ (by omega)]
        show aget (aset ({ σ with cmap := cm1 } : St).heap σ.nextId _) x = aget σ.heap x
        exact aget_aset_ne _ _ _ _ (by omega)
      have hsigeq : sigList σ1 b args = sigList σ b args := by
        unfold sigList
        refine List.map_congr_left ?_
        intro a ha
        rcases List.mem_cons.mp ha with rfl | ha'
        · obtain ⟨s, hs⟩ := Option.isSome_iff_exists.mp hbs
          unfold chainSign
          rw [chainGet_own (htrans a hbN ▸ hb) hs, chainGet_own hb hs]
        · obtain ⟨r, hr, hsr, htr, hpr⟩ := tyOkB_elim (hargs a ha')
          obtain ⟨s, hs⟩ := Option.isSome_iff_exists.mp hsr
          have haN := heapFresh_lt hfresh hr
          unfold chainSign
          rw [chainGet_own (htrans a haN ▸ hr) hs, chainGet_own hr hs]
      have hcm1 : σ1.cmap = cm1 := by
        rw [hσ1, defineTypeArgs_cmap, defineTypeRef_cmap]
        rfl
      cases hins2 : insertTree cm1 (sigList σ b args).dropLast
          ((sigList σ b args).getLastD none) σ1.nextId with
      | mk cm2 r2 =>
        have hhit0 := @insertTree_stored_hit (sigList σ b args).dropLast
          σ.cmap ((sigList σ b args).getLastD none)
          σ.nextId σ1.nextId (by rw [hins])
        rw [hins] at hhit0
        have hhit : (insertTree cm1 (sigList σ b args).dropLast
            ((sigList σ b args).getLastD none) σ1.nextId).2 = InsertRes.hit T := hhit0
        rw [hins2] at hhit
        have hr2 : r2 = InsertRes.hit T := hhit
        subst hr2
        have hargs1 : ∀ a ∈ args, tyOkB σ1 a = true := by
          intro a ha
          obtain ⟨r, hr, _, _, _⟩ := tyOkB_elim (hargs a ha)
          rw [tyOkB_congr (htrans a (heapFresh_lt hfresh hr))]
          exact hargs a ha
        have hins2a : insertTree σ1.cmap (sigList σ1 b args).dropLast
            ((sigList σ1 b args).getLastD none) σ1.nextId = (cm2, InsertRes.hit T) := by
          rw [hsigeq, hcm1]
          exact hins2
        have h2 := complexF_eval (σ := σ1) fuel
          (htrans b hbN ▸ hb) hbs hbt hbp hbr hargs1 hfuel hins2a
        exact ⟨T, σ1, { σ1 with cmap := cm2 }, h1, h2⟩

/-- The named Type "B" as it sits in the heap of `c1s3.2`. -/
def c1rb : HObj := { sign := some 17, tag := some "B", pathField := some "B" }

/-- C1 witness: in the state where only B, A1, A2 exist, two successive
`complex(B, [A1])` calls (a fresh slot, so not demoted) return the same
Type. -/
theorem c1_amended_witness :
    ∃ t σ1 σ2,
      complexF (1 + 2) (.jsObj 17) ([18].map .jsObj) c1s3.2 = (.ok t, σ1) ∧
      complexF (1 + 2) (.jsObj 17) ([18].map .jsObj) σ1 = (.ok t, σ2) :=
  @c1_amended c1s3.2 17 [18] c1rb 1 (by decide) (by decide) (by decide) (by decide)
    (by decide) (by decide) (by decide) (by decide) (by decide)

/-- C5 amended: the pre-seeded primitive Type is returned for a
primitive-table name exactly when the dynamic registry has no entry
under that key — the registry is consulted first (lines 165-170), so
the fixed table has the LOWER priority, it does not override. -/
theorem c5_amended {σ : St} {n : String} {p : Nat} (fuel : Nat)
    (hmiss : aget σ.names n = none) (hp : aget σ.primNames n = some p) :
    parseF (fuel + 1) n σ = (.ok p, σ) := by
  simp only [parseF, bind_eq_mbind, pure_eq_mret, mbind, getSt, hmiss, hp, mret]

/-- C5 witness: in the freshly initialised state, "string" resolves to
the pre-seeded `Primitives.String`. -/
theorem c5_amended_witness :
    parseF (0 + 1) "string" initState = (.ok primitivesString, initState) :=
  c5_amended 0 (by decide) (by decide)

/-- The `CachedType` defineProperty is a no-op once an entry exists. -/
theorem defineCached_noop {σ : St} {id : Nat} {r : HObj} {t0 t' : Nat}
    (hr : aget σ.heap id = some r) (hc : r.cached = some t0) :
    defineCached id t' σ = σ := by
  unfold defineCached
  rw [hr]
  simp [hc]

/-- C7 amended: for an EXTENSIBLE object or function with no existing
entry, `store(v, T)` then `restore(v)` returns the identical `T`, and a
later `store(v, T')` with any other Type leaves both the state and the
stored entry unchanged (write-once). -/
theorem c7_amended {σ : St} {id t t' : Nat} {r : HObj} {v : JSVal}
    (hv : v = JSVal.jsObj id ∨ v = JSVal.jsFun id)
    (hr : aget σ.heap id = some r) (hext : r.extensible = true)
    (hc : r.cached = none) :
    ∃ σ1, storeM v t σ = (.ok (), σ1) ∧
      restoreM v σ1 = (.ok (some t), σ1) ∧
      storeM v t' σ1 = (.ok (), σ1) ∧
      restoreM v σ1 = (.ok (some t), σ1) := by
  have hself := defineCached_self (v := t) hr hc hext
  have hnoop : defineCached id t' (defineCached id t σ) = defineCached id t σ :=
    defineCached_noop hself rfl
  rcases hv with rfl | rfl
  · exact ⟨defineCached id t σ,
      storeM_obj id t,
      by rw [restoreM_obj, hself]; rfl,
      by rw [storeM_obj, hnoop],
      by rw [restoreM_obj, hself]; rfl⟩
  · exact ⟨defineCached id t σ,
      storeM_fun id t,
      by rw [restoreM_fun, hself]; rfl,
      by rw [storeM_fun, hnoop],
      by rw [restoreM_fun, hself]; rfl⟩

/-- A plain extensible host object used by the C7 witness. -/
def c7wObj : HObj := {}

def c7wst : St := { initState with heap := aset initState.heap 100 c7wObj, nextId := 101 }

/-- C7 witness: store-then-restore round-trips on a concrete extensible
object and the second store is ignored. -/
theorem c7_amended_witness :
    ∃ σ1, storeM (JSVal.jsObj 100) 6 c7wst = (.ok (), σ1) ∧
      restoreM (JSVal.jsObj 100) σ1 = (.ok (some 6), σ1) ∧
      storeM (JSVal.jsObj 100) 7 σ1 = (.ok (), σ1) ∧
      restoreM (JSVal.jsObj 100) σ1 = (.ok (some 6), σ1) :=
  c7_amended (r := c7wObj) (Or.inl rfl) (by decide) (by decide) (by decide)

theorem namedM_total (n : String) (σ : St) :
    ∃ t σ', namedM n σ = (.ok t, σ') := by
  cases h : aget σ.names n with
  | some t => exact ⟨t, σ, namedM_hit h⟩
  | none => exact ⟨σ.nextId, namedFreshSt σ n, namedM_miss h⟩


/-- `restore` can throw only the TypeError (on `null`), never the
invalid-reference Error. -/
theorem restoreM_no_invalidRef (v : JSVal) (σ : St) :
    (restoreM v σ).1 ≠ Except.error Err.invalidReference := by
  simp only [restoreM]
  repeat' split
  all_goals simp

/-- `store` can throw only the TypeError (on `null`), never the
invalid-reference Error. -/
theorem storeM_no_invalidRef (v : JSVal) (t : Nat) (σ : St) :
    (storeM v t σ).1 ≠ Except.error Err.invalidReference := by
  simp only [storeM]
  repeat' split
  all_goals simp

/-- `extractName` can throw only the TypeError (on `null`), never the
invalid-reference Error. -/
theorem extractName_no_invalidRef (σ : St) (v : JSVal) :
    extractName σ v ≠ Except.error Err.invalidReference := by
  cases v with
  | jsObj id =>
    simp only [extractName, typeofStr]
    cases hc : chainHasCtor σ id <;> simp [hc, Except.map]
  | jsNull => simp [extractName, typeofStr, Except.map]
  | jsUndefined => simp [extractName, typeofStr, Except.map]
  | jsBool b => simp [extractName, typeofStr, Except.map]
  | jsNum n => simp [extractName, typeofStr, Except.map]
  | jsStr s => simp [extractName, typeofStr, Except.map]
  | jsSym => simp [extractName, typeofStr, Except.map]
  | jsBig n => simp [extractName, typeofStr, Except.map]
  | jsFun id => simp [extractName, typeofStr, Except.map]

/-- The tail of `getClassType` (resolve a Type, `store` it, return it)
never raises the invalid-reference Error when the resolver succeeds. -/
theorem classTail_no_invalidRef (v : JSVal) (c : M Nat) (σ : St)
    (hc : ∀ σ0, ∃ t σ1, c σ0 = (.ok t, σ1)) :
    (mbind c (fun t => mbind (storeM v t) fun _ => mret t) σ).1 ≠
      Except.error Err.invalidReference := by
  obtain ⟨t, σ1, ht⟩ := hc σ
  simp only [mbind, ht]
  cases hs : storeM v t σ1 with
  | mk sr σs =>
    cases sr with
    | error e =>
      have h1 := storeM_no_invalidRef v t σ1
      rw [hs] at h1
      simp only [hs]
      simpa using h1
    | ok u =>
      simp only [hs, mret]
      simp

/-- `getClassType` (lines 304-312) never raises the invalid-reference
Error for any value in any state: its only failure modes are the
TypeErrors of `restore`, `extractName` and `store` on `null`. -/
theorem getClassTypeM_no_invalidRef (v : JSVal) (σ : St) :
    (getClassTypeM v σ).1 ≠ Except.error Err.invalidReference := by
  cases hr : restoreM v σ with
  | mk rr σr =>
    cases rr with
    | error e =>
      have h1 := restoreM_no_invalidRef v σ
      rw [hr] at h1
      simp only [getClassTypeM, bind_eq_mbind, pure_eq_mret, mbind, hr]
      simpa using h1
    | ok cached? =>
      cases cached? with
      | some t =>
        simp only [getClassTypeM, bind_eq_mbind, pure_eq_mret, mbind, hr, mret]
        simp
      | none =>
        simp only [getClassTypeM, bind_eq_mbind, pure_eq_mret, mbind, hr, getSt]
        cases he : extractName σr v with
        | error e =>
          simp only [he, throwE]
          have h2 := extractName_no_invalidRef σr v
          rw [he] at h2
          simpa using h2
        | ok name? =>
          simp only [he]
          cases name? with
          | none =>
            exact classTail_no_invalidRef v createM σr fun σ0 => ⟨σ0.nextId, _, rfl⟩
          | some n =>
            show (mbind (if n = "" then createM else namedM n)
              (fun t => mbind (storeM v t) fun _ => mret t) σr).1 ≠
                Except.error Err.invalidReference
            by_cases hn : n = ""
            · rw [if_pos hn]
              exact classTail_no_invalidRef v createM σr fun σ0 => ⟨σ0.nextId, _, rfl⟩
            · rw [if_neg hn]
              exact classTail_no_invalidRef v (namedM n) σr fun σ0 => namedM_total n σ0

/-- `typeOf` on a function with a cached entry returns it directly. -/
theorem typeOfM_fun_cached {σ : St} {id t : Nat} {r : HObj}
    (hr : aget σ.heap id = some r) (hc : r.cached = some t) :
    typeOfM (.jsFun id) σ = (.ok t, σ) := by
  simp only [typeOfM, isType, typeofStr]
  simp only [show ("function" == "object") = false from rfl, Bool.false_eq_true,
    if_false, show ("function" == "function") = true from rfl, if_true]
  rw [restoreM_fun, hr]
  simp [hc]

/-- `getClassType` succeeds on every function value present in the heap. -/
theorem getClassTypeM_fun_total {σ : St} {id : Nat} {r : HObj}
    (hr : aget σ.heap id = some r) (hc : r.cached = none) :
    ∃ t σ', getClassTypeM (.jsFun id) σ = (.ok t, σ') := by
  by_cases hn : r.funcName = ""
  · refine ⟨σ.nextId, defineCached id σ.nextId (createdSt σ), ?_⟩
    simp only [getClassTypeM, bind_eq_mbind, pure_eq_mret, mbind, getSt, mret,
      restoreM_fun, hr, hc, Option.bind, extractName, typeofStr, funcNameOf,
      show ("function" == "object") = false from rfl, Bool.false_eq_true, if_false,
      Except.map, Option.map, Option.getD, if_pos hn, createM_eq, createdSt]
    rw [storeM_fun]
  · obtain ⟨t, σ', hnm⟩ := namedM_total r.funcName σ
    refine ⟨t, defineCached id t σ', ?_⟩
    rw [getClassTypeM_fun_uncached hr hc hn]
    rw [mbind_ok hnm]
    rw [mbind_ok (storeM_fun id t)]
    rfl

/-- `typeOf` on a plain uncached object whose prototype is the root
`Object.prototype` (lines 290-298): returns `Primitives.Object` and
caches it on the object (a silent no-op when the object is frozen). -/
theorem typeOfM_plain_object {σ : St} {id : Nat} {r : HObj}
    (hr : aget σ.heap id = some r) (hctor : r.ctorProp = none)
    (hproto : r.proto = .objectProto) (hcache : r.cached = none)
    (hsign : chainSign σ id = none) :
    typeOfM (.jsObj id) σ = (.ok primitivesObject, defineCached id primitivesObject σ) := by
  simp only [typeOfM, isType, typeofStr, hsign, Option.isSome_none,
    show ("object" == "object") = true from rfl, if_true, restoreM_obj, hr,
    Option.bind, hcache, getObjectTypeM, isPrototypeId, Option.map, Option.getD,
    hctor, Option.isSome, Bool.false_eq_true, if_false, getInstanceTypeM,
    bind_eq_mbind, pure_eq_mret, mbind, getSt, mret, hproto, storeM_obj]

/-- `typeOf` on an uncached object created with a `null` prototype
(lines 290-302): `getPrototypeOf` returns `null`, so the
`proto.constructor` access of `getPrototypeType` throws a TypeError. -/
theorem typeOfM_nullproto_object {σ : St} {id : Nat} {r : HObj}
    (hr : aget σ.heap id = some r) (hctor : r.ctorProp = none)
    (hproto : r.proto = .nullProto) (hcache : r.cached = none)
    (hsign : chainSign σ id = none) :
    typeOfM (.jsObj id) σ = (.error .typeError, σ) := by
  simp only [typeOfM, isType, typeofStr, hsign, Option.isSome_none,
    show ("object" == "object") = true from rfl, if_true, restoreM_obj, hr,
    Option.bind, hcache, getObjectTypeM, isPrototypeId, Option.map, Option.getD,
    hctor, Option.isSome, Bool.false_eq_true, if_false, getInstanceTypeM,
    bind_eq_mbind, pure_eq_mret, mbind, getSt, mret, hproto, getPrototypeTypeM]

/-- A plain `{}` object, a frozen plain object and an
`Object.create(null)` object, for the C3 witness. -/
def c3plain : HObj := {}

def c3frozen : HObj := { extensible := false }

def c3noproto : HObj := { proto := .nullProto }

def c3wst : St :=
  { initState with
    heap := aset (aset (aset initState.heap 100 c3plain) 101 c3frozen) 102 c3noproto,
    nextId := 103 }

/-- C3 amended: `typeOf` returns a Type without error on every
primitive value other than `null` (classifying through the
`PrimitiveNames` table with the `Primitives.Unknown` fallback, so
unrecognized names degrade instead of failing), on every function value
in the heap, and on every plain object whose prototype is the root
`Object.prototype` — including frozen ones, for which the cache write
silently fails but `Primitives.Object` is still returned.  The claim's
totality fails only at the null-dereference family: `typeOf(null)`
throws a TypeError in every state, and so does `typeOf` of an uncached
object created with a `null` prototype, whose
`getPrototypeType(null).constructor` access throws. -/
theorem c3_amended :
    (∀ (σ : St) (b : Bool), typeOfM (.jsBool b) σ =
      (.ok ((aget σ.primNames (getPrimitiveType σ (.jsBool b))).getD primitivesUnknown), σ)) ∧
    (∀ (σ : St) (n : Int), typeOfM (.jsNum n) σ =
      (.ok ((aget σ.primNames (getPrimitiveType σ (.jsNum n))).getD primitivesUnknown), σ)) ∧
    (∀ (σ : St) (s : String), typeOfM (.jsStr s) σ =
      (.ok ((aget σ.primNames (getPrimitiveType σ (.jsStr s))).getD primitivesUnknown), σ)) ∧
    (∀ σ : St, typeOfM .jsUndefined σ =
      (.ok ((aget σ.primNames (getPrimitiveType σ .jsUndefined)).getD primitivesUnknown), σ)) ∧
    (∀ σ : St, typeOfM .jsSym σ =
      (.ok ((aget σ.primNames (getPrimitiveType σ .jsSym)).getD primitivesUnknown), σ)) ∧
    (∀ (σ : St) (n : Int), typeOfM (.jsBig n) σ =
      (.ok ((aget σ.primNames (getPrimitiveType σ (.jsBig n))).getD primitivesUnknown), σ)) ∧
    (∀ (σ : St) (id : Nat) (r : HObj), aget σ.heap id = some r →
      ∃ t σ', typeOfM (.jsFun id) σ = (.ok t, σ')) ∧
    (∀ σ : St, typeOfM .jsNull σ = (.error .typeError, σ)) ∧
    (∀ (σ : St) (id : Nat) (r : HObj), aget σ.heap id = some r →
      r.ctorProp = none → r.proto = .objectProto → r.cached = none →
      chainSign σ id = none →
      typeOfM (.jsObj id) σ =
        (.ok primitivesObject, defineCached id primitivesObject σ)) ∧
    (∀ (σ : St) (id : Nat) (r : HObj), aget σ.heap id = some r →
      r.ctorProp = none → r.proto = .nullProto → r.cached = none →
      chainSign σ id = none →
      typeOfM (.jsObj id) σ = (.error .typeError, σ)) := by
  refine ⟨fun σ b => rfl, fun σ n => rfl, fun σ s => rfl, fun σ => rfl,
    fun σ => rfl, fun σ n => rfl, ?_, fun σ => rfl,
    fun σ id r hr h1 h2 h3 h4 => typeOfM_plain_object hr h1 h2 h3 h4,
    fun σ id r hr h1 h2 h3 h4 => typeOfM_nullproto_object hr h1 h2 h3 h4⟩
  intro σ id r hr
  cases hc : r.cached with
  | some t => exact ⟨t, σ, typeOfM_fun_cached hr hc⟩
  | none =>
    obtain ⟨t, σ', hgc⟩ := getClassTypeM_fun_total hr hc
    exact ⟨t, σ', by rw [typeOfM_fun_uncached hr hc, hgc]⟩

/-- C3 witness: concrete instances — the primitive 42 maps to the
Number Type, the global `Object` function gets a Type, a plain object
maps to `Primitives.Object` (also when frozen, with the cache write a
silent no-op), `typeOf(null)` throws, and an `Object.create(null)`
object throws. -/
theorem c3_amended_witness :
    typeOfM (.jsNum 42) initState = (.ok primitivesNumber, initState) ∧
    (∃ t σ', typeOfM (.jsFun 0) initState = (.ok t, σ')) ∧
    typeOfM .jsNull initState = (.error .typeError, initState) ∧
    typeOfM (.jsObj 100) c3wst =
      (.ok primitivesObject, defineCached 100 primitivesObject c3wst) ∧
    typeOfM (.jsObj 101) c3wst =
      (.ok primitivesObject, defineCached 101 primitivesObject c3wst) ∧
    typeOfM (.jsObj 102) c3wst = (.error .typeError, c3wst) := by
  refine ⟨?_, c3_amended.2.2.2.2.2.2.1 initState 0
      { callable := true, funcName := "Object" } (by decide),
    c3_amended.2.2.2.2.2.2.2.1 initState,
    c3_amended.2.2.2.2.2.2.2.2.1 c3wst 100 c3plain (by decide) (by decide)
      (by decide) (by decide) (by decide),
    c3_amended.2.2.2.2.2.2.2.2.1 c3wst 101 c3frozen (by decide) (by decide)
      (by decide) (by decide) (by decide),
    c3_amended.2.2.2.2.2.2.2.2.2 c3wst 102 c3noproto (by decide) (by decide)
      (by decide) (by decide) (by decide)⟩
  have h := c3_amended.2.1 initState 42
  have h2 : (aget initState.primNames
      (getPrimitiveType initState (JSVal.jsNum 42))).getD primitivesUnknown
      = primitivesNumber := by decide
  rw [h, h2]

/-- Full path of `parse` for a fresh plain name (no module separator, no
generic suffix, not registered, not primitive): a fresh named Type with
`module`/`path` metadata assigned. -/
theorem parseF_plain_fresh {σ : St} {n : String} (fuel : Nat)
    (hn : aget σ.names n = none) (hp : aget σ.primNames n = none)
    (hsplit : jsSplit2 n = (none, n)) (hmatch : matchGeneric n = none) :
    parseF (fuel + 1) n σ =
      (.ok σ.nextId, assignModPath σ.nextId none n (namedFreshSt σ n)) := by
  simp only [parseF, bind_eq_mbind, pure_eq_mret, mbind, getSt, hn, hp, mret, hsplit,
    hmatch, modTruthy, modifySt, Bool.false_eq_true, if_false]
  rw [namedM_miss hn]

/-- `getClassType` on a function with a cached entry. -/
theorem getClassTypeM_fun_cached {σ : St} {id t : Nat} {r : HObj}
    (hr : aget σ.heap id = some r) (hc : r.cached = some t) :
    getClassTypeM (.jsFun id) σ = (.ok t, σ) := by
  simp only [getClassTypeM, bind_eq_mbind, pure_eq_mret, mbind, getSt, mret,
    restoreM_fun, hr, hc, Option.bind]

/-- The whole instance-resolution walk of `typeOf` (lines 217-218 with
283-312): an uncached plain instance whose direct prototype owns a
`constructor` pointing at a class with a cached Type resolves to that
Type and caches it on the instance. -/
theorem typeOfM_instance {σ : St} {i p c T : Nat} {ri rp rc : HObj}
    (hi : aget σ.heap i = some ri) (hiSign : ri.sign = none)
    (hiCtor : ri.ctorProp = none) (hiCache : ri.cached = none)
    (hiProto : ri.proto = .other p) (hpi : p < i)
    (hp : aget σ.heap p = some rp) (hpSign : rp.sign = none)
    (hpProto : rp.proto = .objectProto) (hpCtor : rp.ctorProp = some (.jsFun c))
    (hc : aget σ.heap c = some rc) (hcCache : rc.cached = some T) :
    typeOfM (.jsObj i) σ = (.ok T, defineCached i T σ) := by
  have hsig : chainSign σ i = none := by
    rw [chainSign, chainGet_step (f := (·.sign)) hi hiSign hiProto hpi]
    exact chainGet_objProto hp hpSign hpProto
  have hctor : chainCtor σ p = some (.jsFun c) :=
    chainGet_own hp hpCtor
  have hclass : getClassTypeM (.jsFun c) σ = (.ok T, σ) :=
    getClassTypeM_fun_cached hc hcCache
  have hproto : getPrototypeTypeM (.jsObj p) σ = (.ok T, σ) := by
    simp only [getPrototypeTypeM, hctor, Option.getD]
    exact hclass
  have hinst : getInstanceTypeM i σ = (.ok T, defineCached i T σ) := by
    simp only [getInstanceTypeM, bind_eq_mbind, pure_eq_mret, mbind, getSt, mret,
      restoreM_obj, hi, Option.bind, hiCache, Option.map, Option.getD, hiProto,
      hproto, storeM_obj]
  simp only [typeOfM, isType, typeofStr, hsig]
  simp only [show ("object" == "object") = true from rfl, if_true, Option.isSome]
  rw [restoreM_obj, hi]
  simp only [Option.bind, hiCache]
  simp only [getObjectTypeM, isPrototypeId, hi, Option.map, Option.getD, hiCtor,
    Option.isSome]
  exact hinst

/-- C9: registering the name "Foo" onto a fresh class `c` binds the
parsed named Type `T` both in the registry under "Foo" and in the
value-type cache of `c`; `typeOf` of a fresh instance (whose direct
prototype owns `constructor = c`) then returns that same `T` by walking
prototype → constructor → cache. -/
theorem c9_register_resolution {σ : St} {c p i : Nat} {rc rp ri : HObj} (fuel : Nat)
    (hfresh : heapFresh σ = true)
    (hname : aget σ.names "Foo" = none) (hprim : aget σ.primNames "Foo" = none)
    (hc : aget σ.heap c = some rc) (hcExt : rc.extensible = true)
    (hcCache : rc.cached = none)
    (hp : aget σ.heap p = some rp) (hpCtor : rp.ctorProp = some (.jsFun c))
    (hpSign : rp.sign = none) (hpProto : rp.proto = .objectProto)
    (hi : aget σ.heap i = some ri) (hiProto : ri.proto = .other p)
    (hiSign : ri.sign = none) (hiCtor : ri.ctorProp = none) (hiCache : ri.cached = none)
    (hpi : p < i) (hic : i ≠ c) (hpc : p ≠ c) :
    ∃ T σ1 σ2,
      registerM (fuel + 1) "Foo" (.jsFun c) σ = (.ok (), σ1) ∧
      aget σ1.names "Foo" = some T ∧
      typeOfM (.jsObj i) σ1 = (.ok T, σ2) := by
  have hcN := heapFresh_lt hfresh hc
  have hpN := heapFresh_lt hfresh hp
  have hiN := heapFresh_lt hfresh hi
  -- the state after registerClass
  set T := σ.nextId with hT
  set σb := assignModPath T none "Foo" (namedFreshSt σ "Foo") with hσb
  set σc := setCtorProp T (.jsFun c) σb with hσc
  set σ1 := defineCached c T σc with hσ1
  have hparse : parseF (fuel + 1) "Foo" σ = (.ok T, σb) :=
    parseF_plain_fresh fuel hname hprim (by decide) (by decide)
  have hreg : registerM (fuel + 1) "Foo" (.jsFun c) σ = (.ok (), σ1) := by
    simp only [registerM, registerClassM, isClass, typeofStr, bind_eq_mbind,
      pure_eq_mret, if_true, show ("function" == "function") = true from rfl]
    rw [mbind_ok hparse]
    simp only [modifySt, mbind, mret, storeM_fun]
  -- heap lookups in σ1 for ids other than T and c are unchanged
  have hlook : ∀ j : Nat, j ≠ c → j < σ.nextId → aget σ1.heap j = aget σ.heap j := by
    intro j hjc hjN
    rw [hσ1, defineCached_aget_ne _ _ (Ne.symm hjc), hσc,
      setCtorProp_aget_ne _ _ (by omega), hσb,
      assignModPath_aget_ne _ _ _ (by omega)]
    show aget (aset σ.heap σ.nextId _) j = aget σ.heap j
    exact aget_aset_ne _ _ _ _ (by omega)
  have hc1 : aget σ1.heap c = some { rc with cached := some T } := by
    have hcb : aget σc.heap c = some rc := by
      rw [hσc, setCtorProp_aget_ne _ _ (by omega), hσb,
        assignModPath_aget_ne _ _ _ (by omega)]
      show aget (aset σ.heap σ.nextId _) c = some rc
      rw [aget_aset_ne _ _ _ _ (by omega)]
      exact hc
    rw [hσ1]
    exact defineCached_self hcb hcCache hcExt
  have hnames1 : aget σ1.names "Foo" = some T := by
    rw [hσ1, defineCached_names, hσc, setCtorProp_names, hσb, assignModPath_names]
    show aget (aset σ.names "Foo" T) "Foo" = some T
    exact aget_aset_self _ _ _
  refine ⟨T, σ1, defineCached i T σ1, hreg, hnames1, ?_⟩
  exact typeOfM_instance (hlook i hic hiN ▸ hi) hiSign hiCtor hiCache hiProto hpi
    (hlook p hpc hpN ▸ hp) hpSign hpProto hpCtor hc1 rfl

/-- C9 witness: the concrete class/prototype/instance scenario `c9st`
resolves the instance to the registered Type. -/
theorem c9_register_resolution_witness :
    ∃ T σ1 σ2,
      registerM (49 + 1) "Foo" (.jsFun 100) c9st = (.ok (), σ1) ∧
      aget σ1.names "Foo" = some T ∧
      typeOfM (.jsObj 102) σ1 = (.ok T, σ2) :=
  @c9_register_resolution c9st 100 101 102 c9foo c9proto c9inst 49
    (by decide) (by decide) (by decide) (by decide) (by decide) (by decide)
    (by decide) (by decide) (by decide) (by decide) (by decide) (by decide)
    (by decide) (by decide) (by decide) (by decide) (by decide) (by decide)

/-! ### Registry preservation (for C4)

The only registry writes are `named` (never overwrites: it writes only
on a miss) and the canonical-alias registration of `parse` (whose key
always ends in `>`).  Hence an entry under a key NOT ending in `>` is
stable under every operation of the module. -/

/-- Registry entries under keys not ending in `>` survive from `σ` to
`σ'`. -/
def namesPres (σ σ' : St) : Prop :=
  ∀ k t, lastChar k ≠ some '>' → aget σ.names k = some t → aget σ'.names k = some t

theorem namesPres_refl (σ : St) : namesPres σ σ := fun _ _ _ h => h

theorem namesPres_trans {a b c : St} (h1 : namesPres a b) (h2 : namesPres b c) :
    namesPres a c := fun k t hk h => h2 k t hk (h1 k t hk h)

theorem namesPres_of_eq {σ σ' : St} (h : σ'.names = σ.names) : namesPres σ σ' :=
  fun k t _ hget => by rw [h]; exact hget

theorem mbind_pres {α β : Type} {x : M α} {f : α → M β}
    (hx : ∀ σ, namesPres σ (x σ).2) (hf : ∀ a σ, namesPres σ (f a σ).2) :
    ∀ σ, namesPres σ (mbind x f σ).2 := by
  intro σ
  unfold mbind
  cases hx1 : x σ with
  | mk r σ1 =>
    have hσ1 : namesPres σ σ1 := by
      have := hx σ
      rw [hx1] at this
      exact this
    cases r with
    | ok a => exact namesPres_trans hσ1 (hf a σ1)
    | error e => exact hσ1

theorem modifySt_pres {g : St → St} (h : ∀ σ, namesPres σ (g σ)) :
    ∀ σ, namesPres σ ((modifySt g σ).2) := fun σ => h σ

theorem mret_pres {α : Type} (a : α) : ∀ σ, namesPres σ ((mret a σ).2) :=
  fun σ => namesPres_refl σ

theorem throwE_pres {α : Type} (e : Err) : ∀ σ, namesPres σ ((throwE (α := α) e σ).2) :=
  fun σ => namesPres_refl σ

theorem getSt_pres : ∀ σ, namesPres σ ((getSt σ).2) := fun σ => namesPres_refl σ

theorem namedM_pres (n : String) : ∀ σ, namesPres σ ((namedM n σ).2) := by
  intro σ
  cases h : aget σ.names n with
  | some t =>
    rw [namedM_hit h]
    exact namesPres_refl σ
  | none =>
    rw [namedM_miss h]
    intro k t hk hget
    show aget (aset σ.names n σ.nextId) k = some t
    have hkn : n ≠ k := fun he => by rw [he] at h; rw [h] at hget; cases hget
    rw [aget_aset_ne _ _ _ _ hkn]
    exact hget

theorem createM_pres : ∀ σ, namesPres σ ((createM σ).2) :=
  fun _ => namesPres_of_eq rfl

theorem storeM_pres (v : JSVal) (t : Nat) : ∀ σ, namesPres σ ((storeM v t σ).2) := by
  intro σ
  cases v <;>
    first
      | exact namesPres_refl σ
      | exact namesPres_of_eq (defineCached_names _ _ _)

theorem restoreM_state (v : JSVal) (σ : St) : (restoreM v σ).2 = σ := by
  cases v <;> rfl

theorem restoreM_pres (v : JSVal) : ∀ σ, namesPres σ ((restoreM v σ).2) := by
  intro σ
  rw [restoreM_state]
  exact namesPres_refl σ

theorem createComplexM_pres (b : Nat) (args : List Nat) :
    ∀ σ, namesPres σ ((createComplexM b args σ).2) := by
  refine mbind_pres createM_pres fun id => mbind_pres
    (modifySt_pres fun _ => namesPres_of_eq (defineTypeRef_names _ _ _))
    fun _ => mbind_pres
      (modifySt_pres fun _ => namesPres_of_eq (defineTypeArgs_names _ _ _))
      fun _ => mret_pres id

theorem getClassTypeM_pres (v : JSVal) : ∀ σ, namesPres σ ((getClassTypeM v σ).2) := by
  simp only [getClassTypeM, bind_eq_mbind, pure_eq_mret]
  refine mbind_pres (restoreM_pres v) fun cached? => ?_
  cases cached? with
  | some t => exact mret_pres t
  | none =>
    refine mbind_pres getSt_pres fun a => ?_
    intro σ
    cases extractName a v with
    | error e => exact namesPres_refl σ
    | ok name? =>
      revert σ
      refine mbind_pres ?_ fun t => mbind_pres (storeM_pres v t) fun _ => mret_pres t
      cases name? with
      | some n =>
        by_cases hn : n = "" <;> simp only [hn, if_true, if_false] <;>
          first
            | exact createM_pres
            | exact namedM_pres n
      | none => exact createM_pres

theorem lastChar_concat_gt (s : String) : lastChar (s ++ ">") = some '>' := by
  unfold lastChar
  rw [String.data_append]
  exact List.getLast?_concat _

/-- Registering a canonical alias (a key ending in `>`) never disturbs
keys that do not end in `>`. -/
theorem namesPres_aset_gt {σ : St} {c : String} {t : Nat} (hc : lastChar c = some '>') :
    namesPres σ { σ with names := aset σ.names c t } := by
  intro k u hk hget
  show aget (aset σ.names c t) k = some u
  have hck : c ≠ k := fun he => hk (he ▸ hc)
  rw [aget_aset_ne _ _ _ _ hck]
  exact hget

/-- Master lemma: no call of the mutually recursive core ever removes or
overwrites a registry entry whose key does not end in `>` (`named` only
writes on a miss, and the canonical aliases of `parse` end in `>`). -/
theorem enginePres (fuel : Nat) :
    (∀ v σ, namesPres σ (typeF fuel v σ).2) ∧
    (∀ vs σ, namesPres σ (typeListF fuel vs σ).2) ∧
    (∀ b as σ, namesPres σ (complexF fuel b as σ).2) ∧
    (∀ s σ, namesPres σ (parseF fuel s σ).2) := by
  induction fuel with
  | zero =>
    exact ⟨fun _ σ => namesPres_refl σ, fun _ σ => namesPres_refl σ,
      fun _ _ σ => namesPres_refl σ, fun _ σ => namesPres_refl σ⟩
  | succ f ih =>
    obtain ⟨ihT, ihL, ihC, ihP⟩ := ih
    have hT : ∀ v σ, namesPres σ (typeF (f + 1) v σ).2 := by
      intro v σ
      cases v with
      | jsStr s => exact ihP s σ
      | jsNull =>
        simp only [typeF]
        repeat' split
        all_goals exact namesPres_refl σ
      | jsUndefined =>
        simp only [typeF]
        repeat' split
        all_goals exact namesPres_refl σ
      | jsBool b =>
        simp only [typeF]
        repeat' split
        all_goals exact namesPres_refl σ
      | jsNum n =>
        simp only [typeF]
        repeat' split
        all_goals exact namesPres_refl σ
      | jsSym =>
        simp only [typeF]
        repeat' split
        all_goals exact namesPres_refl σ
      | jsBig n =>
        simp only [typeF]
        repeat' split
        all_goals exact namesPres_refl σ
      | jsObj id =>
        simp only [typeF]
        repeat' split
        all_goals
          first
            | exact namesPres_refl σ
            | exact getClassTypeM_pres _ σ
      | jsFun id =>
        simp only [typeF]
        repeat' split
        all_goals
          first
            | exact namesPres_refl σ
            | exact getClassTypeM_pres _ σ
    refine ⟨hT, ?_, ?_, ?_⟩
    · -- typeListF
      intro vs σ
      cases vs with
      | nil => exact namesPres_refl σ
      | cons v rest =>
        simp only [typeListF, bind_eq_mbind, pure_eq_mret]
        exact mbind_pres (ihT v)
          (fun t => mbind_pres (ihL rest) fun ts => mret_pres (t :: ts)) σ
    · -- complexF
      intro b as σ
      simp only [complexF, bind_eq_mbind, pure_eq_mret]
      refine mbind_pres (ihT b) (fun bid => mbind_pres getSt_pres
        (fun σb => mbind_pres (ihL as) (fun args => mbind_pres getSt_pres
          (fun σ2 => ?_)))) σ
      intro σ'
      refine mbind_pres (modifySt_pres fun σx => ?_) (fun _ => ?_) σ'
      · exact namesPres_of_eq rfl
      intro σ''
      cases (insertTree σ2.cmap
          ((List.map (chainSign σ2) (baseTypeOf σb bid :: args)).dropLast)
          ((List.map (chainSign σ2) (baseTypeOf σb bid :: args)).getLastD none)
          σ2.nextId).2 with
      | hit t => exact mret_pres t σ''
      | stored => exact createComplexM_pres _ _ σ''
      | unstored => exact createComplexM_pres _ _ σ''
    · -- parseF
      intro s σ
      simp only [parseF, bind_eq_mbind, pure_eq_mret]
      refine mbind_pres getSt_pres (fun σ0 => ?_) σ
      intro σ'
      cases aget σ0.names s with
      | some t => exact namesPres_refl σ'
      | none =>
        cases aget σ0.primNames s with
        | some t => exact namesPres_refl σ'
        | none =>
          refine mbind_pres (namedM_pres _) (fun result => mbind_pres
            (modifySt_pres fun _ => namesPres_of_eq (assignModPath_names _ _ _ _))
            (fun _ => ?_)) σ'
          intro σ''
          cases matchGeneric (jsSplit2 s).2 with
          | none => exact mret_pres result σ''
          | some ptp =>
            obtain ⟨p, tp⟩ := ptp
            refine mbind_pres (ihC _ _) (fun result2 => mbind_pres getSt_pres
              (fun σ1 => ?_)) σ''
            intro σ3
            cases chainTypeArgs σ1 result2 with
            | none => exact namesPres_refl σ3
            | some argIds =>
              cases chainTypeRef σ1 result2 with
              | none => exact namesPres_refl σ3
              | some bb =>
                refine mbind_pres
                  (modifySt_pres fun _ => namesPres_of_eq (defineTag_names _ _ _))
                  (fun _ => mbind_pres
                    (modifySt_pres fun _ => namesPres_aset_gt (lastChar_concat_gt _))
                    (fun _ => mbind_pres
                      (modifySt_pres fun _ =>
                        namesPres_of_eq (assignModPath_names _ _ _ _))
                      fun _ => mret_pres result2)) σ3

theorem getPrototypeTypeM_pres (v : JSVal) :
    ∀ σ, namesPres σ ((getPrototypeTypeM v σ).2) := by
  intro σ
  cases v with
  | jsObj id => exact getClassTypeM_pres _ σ
  | jsFun id => exact getClassTypeM_pres _ σ
  | jsNull => exact namesPres_refl σ
  | jsUndefined => exact namesPres_refl σ
  | jsBool b => exact namesPres_refl σ
  | jsNum n => exact namesPres_refl σ
  | jsStr s => exact namesPres_refl σ
  | jsSym => exact namesPres_refl σ
  | jsBig n => exact namesPres_refl σ

theorem getInstanceTypeM_pres (id : Nat) :
    ∀ σ, namesPres σ ((getInstanceTypeM id σ).2) := by
  simp only [getInstanceTypeM, bind_eq_mbind, pure_eq_mret]
  refine mbind_pres (restoreM_pres _) fun cached? => ?_
  cases cached? with
  | some t => exact mret_pres t
  | none =>
    refine mbind_pres getSt_pres fun a => ?_
    refine mbind_pres ?_ fun t => mbind_pres (storeM_pres _ t) fun _ => mret_pres t
    cases ((aget a.heap id).map (·.proto)).getD .nullProto with
    | objectProto => exact mret_pres _
    | nullProto => exact getPrototypeTypeM_pres _
    | other j => exact getPrototypeTypeM_pres _

theorem getObjectTypeM_pres (id : Nat) :
    ∀ σ, namesPres σ ((getObjectTypeM id σ).2) := by
  intro σ
  by_cases h : isPrototypeId σ id
  · simp only [getObjectTypeM, h, if_true]
    exact getPrototypeTypeM_pres _ σ
  · simp only [getObjectTypeM, h, Bool.false_eq_true, if_false]
    exact getInstanceTypeM_pres _ σ

theorem typeOfM_pres (v : JSVal) : ∀ σ, namesPres σ ((typeOfM v σ).2) := by
  intro σ
  simp only [typeOfM]
  cases isType σ v with
  | error e => exact namesPres_refl σ
  | ok bt =>
    cases bt
    · cases hov : typeofStr v == "object" with
      | true =>
        simp only [if_true]
        cases hr : restoreM v σ with
        | mk rr σr =>
          have hσr : σ = σr := by
            have := restoreM_state v σ
            rw [hr] at this
            exact this.symm
          subst hσr
          cases rr with
          | error e => exact namesPres_refl σ
          | ok o =>
            cases o with
            | some t => exact namesPres_refl σ
            | none =>
              cases v with
              | jsObj id => exact getObjectTypeM_pres id σ
              | jsNull => exact namesPres_refl σ
              | jsUndefined => exact namesPres_refl σ
              | jsBool b => exact namesPres_refl σ
              | jsNum n => exact namesPres_refl σ
              | jsStr s => exact namesPres_refl σ
              | jsSym => exact namesPres_refl σ
              | jsBig n => exact namesPres_refl σ
              | jsFun id => exact namesPres_refl σ
      | false =>
        simp only [Bool.false_eq_true, if_false]
        cases hof : typeofStr v == "function" with
        | false =>
          simp only [Bool.false_eq_true, if_false]
          exact namesPres_refl σ
        | true =>
          simp only [if_true]
          cases hr : restoreM v σ with
          | mk rr σr =>
            have hσr : σ = σr := by
              have := restoreM_state v σ
              rw [hr] at this
              exact this.symm
            subst hσr
            cases rr with
            | error e => exact namesPres_refl σ
            | ok o =>
              cases o with
              | some t => exact namesPres_refl σ
              | none => exact getClassTypeM_pres v σ
    · exact namesPres_refl σ

theorem registerM_pres (fuel : Nat) (n : String) (v : JSVal) :
    ∀ σ, namesPres σ ((registerM fuel n v σ).2) := by
  intro σ
  simp only [registerM, registerClassM, bind_eq_mbind, pure_eq_mret]
  cases hc : isClass v with
  | false =>
    simp only [Bool.false_eq_true, if_false]
    exact namesPres_refl σ
  | true =>
    simp only [if_true]
    exact mbind_pres ((enginePres fuel).2.2.2 n)
      (fun t => mbind_pres
        (modifySt_pres fun _ => namesPres_of_eq (setCtorProp_names _ _ _))
        fun _ => storeM_pres v t) σ

/-- External operations a host program can interleave between two
`parse` calls (the claims mention parse, typeOf and complex; store,
restore and register are included for good measure). -/
inductive Op where
  | opParse (s : String)
  | opTypeOf (v : JSVal)
  | opTypeCall (v : JSVal)
  | opComplexCall (b : JSVal) (args : List JSVal)
  | opStore (v : JSVal) (t : Nat)
  | opRestore (v : JSVal)
  | opRegister (n : String) (v : JSVal)

/-- Run one operation for its state effect. -/
def runOp (fuel : Nat) (op : Op) (σ : St) : St :=
  match op with
  | .opParse s => (parseF fuel s σ).2
  | .opTypeOf v => (typeOfM v σ).2
  | .opTypeCall v => (typeF fuel v σ).2
  | .opComplexCall b args => (complexF fuel b args σ).2
  | .opStore v t => (storeM v t σ).2
  | .opRestore v => (restoreM v σ).2
  | .opRegister n v => (registerM fuel n v σ).2

/-- Run a sequence of operations. -/
def runOps (fuel : Nat) : List Op → St → St
  | [], σ => σ
  | op :: rest, σ => runOps fuel rest (runOp fuel op σ)

theorem runOp_pres (fuel : Nat) (op : Op) (σ : St) : namesPres σ (runOp fuel op σ) := by
  cases op with
  | opParse s => exact (enginePres fuel).2.2.2 s σ
  | opTypeOf v => exact typeOfM_pres v σ
  | opTypeCall v => exact (enginePres fuel).1 v σ
  | opComplexCall b args => exact (enginePres fuel).2.2.1 b args σ
  | opStore v t => exact storeM_pres v t σ
  | opRestore v => exact restoreM_pres v σ
  | opRegister n v => exact registerM_pres fuel n v σ

theorem runOps_pres (fuel : Nat) :
    ∀ (ops : List Op) (σ : St), namesPres σ (runOps fuel ops σ) := by
  intro ops
  induction ops with
  | nil => exact fun σ => namesPres_refl σ
  | cons op rest ih =>
    intro σ
    exact namesPres_trans (runOp_pres fuel op σ) (ih (runOp fuel op σ))

/-- C4 amended: once a `parse(n)` call has returned `t1` and left the
registry mapping `n` itself to `t1` — which is what happens for every
non-generic name, since canonical aliases are the only overwritable
keys and they always end in `>` — every later `parse(n)`, with
arbitrary interleaved parse/typeOf/type/complex/store/restore/register
calls in between, hits the fast path and returns the
reference-identical `t1` (and `compare(t1, t1)` holds).  For generic
names the property fails: see the counterexample. -/
theorem c4_amended {σ σ1 : St} {n : String} {t1 : Nat} (fuel : Nat)
    (_hfirst : parseF (fuel + 1) n σ = (.ok t1, σ1))
    (hreg : aget σ1.names n = some t1)
    (hlast : lastChar n ≠ some '>')
    (ops : List Op) (g opFuel : Nat) :
    parseF (g + 1) n (runOps opFuel ops σ1) = (.ok t1, runOps opFuel ops σ1) ∧
    compareT (runOps opFuel ops σ1) t1 t1 = true := by
  have hpres : aget (runOps opFuel ops σ1).names n = some t1 :=
    runOps_pres opFuel ops σ1 n t1 hlast hreg
  refine ⟨parseF_fastpath g hpres, ?_⟩
  simp [compareT]

def c4wRun : Except Err Nat × St := parseF (29 + 1) "Foo" initState

def c4wOps : List Op :=
  [.opParse "Bar", .opComplexCall (.jsStr "Foo") [.jsStr "string"],
   .opTypeOf (.jsNum 1), .opStore (.jsObj 6) 7, .opRegister "Baz" (.jsFun 0)]

/-- C4 witness: "Foo" parses to Type 17, stays registered across a batch
of interleaved operations, and a later parse returns the identical 17. -/
theorem c4_amended_witness :
    parseF (5 + 1) "Foo" (runOps 20 c4wOps c4wRun.2) =
      (.ok 17, runOps 20 c4wOps c4wRun.2) ∧
    compareT (runOps 20 c4wOps c4wRun.2) 17 17 = true := by
  have h1 : (parseF (29 + 1) "Foo" initState).1 = .ok 17 := by decide
  have hfirst : parseF (29 + 1) "Foo" initState = (.ok 17, c4wRun.2) := by
    rw [← h1]
    exact Prod.mk.eta.symm
  exact c4_amended 29 hfirst (by decide) (by decide) c4wOps 5 20


/-- A host object carrying a typed value: its string-keyed `Type`
property holds the pre-seeded String primitive Type. -/
def c6typed : HObj := { typeProp := some (.jsObj primitivesString) }

/-- A host object created with a `null` prototype
(`Object.create(null)`): no `toString` is reachable from it. -/
def c6noproto : HObj := { proto := .nullProto }

def c6wst : St :=
  { initState with
    heap := aset (aset initState.heap 100 c6typed) 101 c6noproto,
    nextId := 102 }

/-- C6 amended: `type(ref)` raises the invalid-reference Error for every
reference outside the four accepted shapes EXCEPT three TypeError
families — undefined, booleans, numbers, bigints, and plain untyped
objects (no `Type` property, no signature on the prototype chain, a
reachable `toString`) all yield the invalid-reference Error, while
`type(null)` throws a TypeError from the `isTyped` member access,
`type(symbol)` throws a TypeError when the error-message template
literal coerces the symbol, and an untyped object with NO reachable
`toString` (a null-prototype object) throws a TypeError from that same
coercion before the Error is constructed.  References of the four
accepted shapes never raise the invalid-reference error: a Type passes
through as itself, a typed value yields its `Type` property, a function
resolves via `getClassType` (which never produces that error for any
value in any state), and a string is handed to the parser. -/
theorem c6_amended (fuel : Nat) :
    (∀ σ : St, typeF (fuel + 1) .jsUndefined σ = (.error .invalidReference, σ)) ∧
    (∀ (σ : St) (b : Bool),
      typeF (fuel + 1) (.jsBool b) σ = (.error .invalidReference, σ)) ∧
    (∀ (σ : St) (n : Int),
      typeF (fuel + 1) (.jsNum n) σ = (.error .invalidReference, σ)) ∧
    (∀ (σ : St) (n : Int),
      typeF (fuel + 1) (.jsBig n) σ = (.error .invalidReference, σ)) ∧
    (∀ (σ : St) (id : Nat), chainTypeProp σ id = none → chainSign σ id = none →
      hasToString σ id = true →
      typeF (fuel + 1) (.jsObj id) σ = (.error .invalidReference, σ)) ∧
    (∀ (σ : St) (id : Nat), chainTypeProp σ id = none → chainSign σ id = none →
      hasToString σ id = false →
      typeF (fuel + 1) (.jsObj id) σ = (.error .typeError, σ)) ∧
    (∀ σ : St, typeF (fuel + 1) .jsNull σ = (.error .typeError, σ)) ∧
    (∀ σ : St, typeF (fuel + 1) .jsSym σ = (.error .typeError, σ)) ∧
    (∀ (σ : St) (id : Nat), chainTypeProp σ id = none → chainSign σ id ≠ none →
      typeF (fuel + 1) (.jsObj id) σ = (.ok id, σ)) ∧
    (∀ (σ : St) (id tid : Nat), chainTypeProp σ id = some (.jsObj tid) →
      chainSign σ tid ≠ none →
      typeF (fuel + 1) (.jsObj id) σ = (.ok tid, σ)) ∧
    (∀ (σ : St) (id : Nat),
      typeF (fuel + 1) (.jsFun id) σ = getClassTypeM (.jsFun id) σ) ∧
    (∀ (σ : St) (v : JSVal),
      (getClassTypeM v σ).1 ≠ Except.error Err.invalidReference) ∧
    (∀ (σ : St) (s : String), typeF (fuel + 1) (.jsStr s) σ = parseF fuel s σ) := by
  refine ⟨?_, ?_, ?_, ?_, ?_, ?_, ?_, ?_, ?_, ?_, ?_, ?_, ?_⟩
  · intro σ
    simp [typeF, isTyped, isType, isClass, typeofStr]
  · intro σ b
    simp [typeF, isTyped, isType, isClass, typeofStr]
  · intro σ n
    simp [typeF, isTyped, isType, isClass, typeofStr]
  · intro σ n
    simp [typeF, isTyped, isType, isClass, typeofStr]
  · intro σ id hp hs htos
    simp [typeF, isTyped, isType, isClass, typeofStr, hp, hs, htos]
  · intro σ id hp hs htos
    simp [typeF, isTyped, isType, isClass, typeofStr, hp, hs, htos]
  · intro σ
    simp [typeF, isTyped, isType, isClass, typeofStr]
  · intro σ
    simp [typeF, isTyped, isType, isClass, typeofStr]
  · intro σ id hp hs
    rw [Option.ne_none_iff_isSome] at hs
    simp [typeF, isTyped, isType, isClass, typeofStr, hp, hs]
  · intro σ id tid hp hs
    rw [Option.ne_none_iff_isSome] at hs
    simp [typeF, isTyped, isType, isClass, typeofStr, hp, hs]
  · intro σ id
    simp [typeF, isTyped, isType, isClass, typeofStr]
  · intro σ v
    exact getClassTypeM_no_invalidRef v σ
  · intro σ s
    simp [typeF]

/-- C6 witness: at the concrete C9 state, the plain instance object 102
(untyped, unsigned, `toString` reachable through its prototype chain)
raises the invalid-reference Error; a null-prototype object throws the
coercion TypeError instead; the pre-seeded String primitive Type passes
through as itself; and a typed host object whose `Type` property holds
it yields that Type. -/
theorem c6_amended_witness :
    typeF (0 + 1) (.jsObj 102) c9st = (.error .invalidReference, c9st) ∧
    typeF (0 + 1) (.jsObj 101) c6wst = (.error .typeError, c6wst) ∧
    typeF (0 + 1) (.jsObj primitivesString) initState =
      (.ok primitivesString, initState) ∧
    typeF (0 + 1) (.jsObj 100) c6wst = (.ok primitivesString, c6wst) :=
  ⟨(c6_amended 0).2.2.2.2.1 c9st 102 (by decide) (by decide) (by decide),
   (c6_amended 0).2.2.2.2.2.1 c6wst 101 (by decide) (by decide) (by decide),
   (c6_amended 0).2.2.2.2.2.2.2.2.1 initState primitivesString (by decide) (by decide),
   (c6_amended 0).2.2.2.2.2.2.2.2.2.1 c6wst 100 primitivesString
     (by decide) (by decide)⟩

/-- C10 witness: two concrete host functions both named "Dup" resolve to
the same Type at `c10st`. -/
theorem c10_shared_name_shared_type_witness :
    ∃ t σ1 σ2,
      typeOfM (.jsFun 100) c10st = (.ok t, σ1) ∧
      typeOfM (.jsFun 101) σ1 = (.ok t, σ2) ∧
      compareT σ2 t t = true :=
  @c10_shared_name_shared_type c10st 100 101 c10fun c10fun "Dup"
    (by decide) (by decide) (by decide) (by decide) (by decide)
    (by decide) (by decide) (by decide) (by decide)

/-- C1 counterexample: after `complex(B, [A1, A2])` interns a longer
argument list, the leaf slot for `(B, [A1])` is a nested level, so the
two subsequent calls `complex(B, [A1])` each return a FRESH complex Type
(ids 21 and 22) — two distinct Complex Type objects for the same
ordered (base, args) combination, refuting uniqueness and call-to-call
identity. -/
theorem c1_counterexample :
    c1s1.1 = .ok 17 ∧ c1s2.1 = .ok 18 ∧ c1s3.1 = .ok 19 ∧
    c1s4.1 = .ok 20 ∧
    c1s5.1 = .ok 21 ∧ c1s6.1 = .ok 22 ∧ (21 : Nat) ≠ 22 ∧
    chainTypeRef c1s6.2 21 = some 17 ∧ chainTypeArgs c1s6.2 21 = some [18] ∧
    chainTypeRef c1s6.2 22 = some 17 ∧ chainTypeArgs c1s6.2 22 = some [18] := by
  decide

/-- C2: the greedy regex `^(.*)\<(.*)\>$` of line 176 splits
`"List<Map<string, number>>"` at the LAST `<`, so the base path is
`"List<Map"` (not `"List"`) and the parameter text is
`"string, number>"`, which the depth counter splits into
`["string", "number>"]` (not `["Map<string, number>"]`); the resulting
Type is `named("List<Map")` parameterised by the primitive String type
and a Type named `"number>"`.  The depth-aware splitter itself is
exactly the one the claim describes, but the greedy capture hands it the
wrong parameter text, contradicting the documented contract. -/
theorem c2_parse_splits_at_last_bracket :
    jsSplit2 "List<Map<string, number>>" = (none, "List<Map<string, number>>") ∧
    matchGeneric "List<Map<string, number>>" = some ("List<Map", "string, number>") ∧
    matchGeneric "List<Map<string, number>>" ≠ some ("List", "Map<string, number>") ∧
    splitParams "string, number>" = ["string", "number>"] ∧
    splitParams "string, number>" ≠ ["Map<string, number>"] ∧
    c2run.1 = .ok 19 ∧
    nameOfT c2run.2 19 = some "List<Map<String, number>>" ∧
    aget c2run.2.names "List<Map" = some 17 ∧
    chainTypeRef c2run.2 19 = some 17 ∧
    chainTypeArgs c2run.2 19 = some [primitivesString, 18] ∧
    nameOfT c2run.2 18 = some "number>" := by decide

/-- C3 counterexample: `typeOf(null)` throws a TypeError (line 247 reads
`null[TypeSignature]` because `typeof null === "object"`), so `typeOf`
is not total on all runtime values. -/
theorem c3_counterexample :
    (typeOfM .jsNull initState).1 = .error .typeError ∧
    Err.typeError ≠ Err.invalidReference := by decide

/-- C4 counterexample: `parse("P<string>")` returns Type 18; an
interleaved `parse("P<string, string>")` demotes the interner leaf for
`(P, [string])` into a nested level; the second `parse("P<string>")`
then gets a fresh uncached complex Type 20 ≠ 18, refuting idempotence
of `parse` under interleaved calls. -/
theorem c4_counterexample :
    c4s1.1 = .ok 18 ∧ c4s2.1 = .ok 19 ∧ c4s3.1 = .ok 20 ∧ (18 : Nat) ≠ 20 := by
  decide

/-- C5 counterexample: `parse` (lines 164-170) consults the dynamic
`Names` registry BEFORE the `PrimitiveNames` table.  Resolving a host
function whose `.name` is "string" registers a fresh Type 101 under the
key "string"; `parse("string")` then returns that Type, not the
pre-seeded primitive `Primitives.String` (id 6) — the registry shadows
the primitive table, the opposite priority of the claim. -/
theorem c5_counterexample :
    aget initState.primNames "string" = some primitivesString ∧
    c5s1.1 = .ok 101 ∧
    c5s2.1 = .ok 101 ∧
    (101 : Nat) ≠ primitivesString := by decide

/-- C6 counterexample: `type(null)` fails with a TypeError thrown by the
`isTyped` member access on `null` (line 239), not with the
"invalid reference" Error of line 86, although `null` is not one of the
four accepted reference shapes. -/
theorem c6_counterexample :
    (typeF 5 .jsNull initState).1 = .error .typeError ∧
    (typeF 5 .jsNull initState).1 ≠ .error .invalidReference := by decide

/-- C7 counterexample: for a frozen (non-extensible) object,
`store(o, T)` silently does nothing (`Reflect.defineProperty` fails and
its Bool result is ignored), so `restore(o)` afterwards returns
`undefined`, not `T`. -/
theorem c7_counterexample :
    c7s1.1 = .ok () ∧
    (restoreM (.jsObj 100) c7s1.2).1 = .ok none ∧
    (.ok none : Except Err (Option Nat)) ≠ .ok (some primitivesString) := by decide

/-- C8: `parse("Map<string, number>")` yields Type 18 whose display name
is `"Map<String, Number>"` (built from the toStringTags of
`named("Map")`, `Primitives.String` and `Primitives.Number`); that
canonical name is registered as an alias in `Names`; and parsing the
canonical string returns the reference-identical Type 18. -/
theorem c8_roundtrip_naming :
    c8run1.1 = .ok 18 ∧
    nameOfT c8run1.2 18 = some "Map<String, Number>" ∧
    aget c8run1.2.names "Map<String, Number>" = some 18 ∧
    c8run2.1 = .ok 18 ∧
    c8run2.2 = c8run1.2 := by
  refine ⟨by decide, by decide, by decide, by decide, ?_⟩
  have h : aget c8run1.2.names "Map<String, Number>" = some 18 := by decide
  have h2 : parseF 60 "Map<String, Number>" c8run1.2 = (.ok 18, c8run1.2) :=
    parseF_fastpath 59 h
  simp only [c8run2, h2]

end Typing
